import Mathlib

/-!
# Verification of the Entity Resolution & Flight Simulation logic

A shallow embedding, in Lean 4, of the decision logic implemented in
`src/components/DataPointOverlay.jsx` of the `prun_universe_map` application:

* `normalizeLookupKey` / `toNumericValue` — permissive value coercions,
* `evaluateStorageRecord` / `pickPreferredStorageRecord` / `storageIndex` —
  the storage record selector,
* `resolveSystemId` and its lookup tables — the system resolver,
* `selectDisplayLocation` — the location candidate selector,
* `shipmentContractsByItemId` — the shipment contract matcher,
* the ship-load ratio computation and `shipLoadInfo` index,
* `interpolateShipPosition` and the flight-activity classification.

Modelling conventions used throughout:

* JavaScript strings are modelled as `List Char`, because the embedding needs
  executable, kernel-reducible string primitives (trim, case folding,
  substring search); the helpers below mirror the string methods used in the
  source.  JavaScript numbers are modelled as `Rat` (the source guards every
  number it keeps with `Number.isFinite`, so `NaN`/`Infinity` never survive
  into the modelled values, and such guards become no-ops here).
* A JavaScript object field that may be absent, `null`, or carry a value is
  modelled as an `Option`; field pairs that differ only in spelling case and
  are always read together as `X || x` in the source are collapsed into one
  modelled field.
* `Date.parse` and `Math.hypot` are host functions; they are passed in as
  explicit function parameters, so every theorem quantifies over their
  behaviour.
* ES `Map` objects are modelled as association lists with
  insert-or-overwrite (`mset`) and first-match lookup (`mget`) — the same
  observable semantics as `Map.set` / `Map.get`.
-/

/-- Convert a Lean string literal to the `List Char` representation used for
JavaScript strings in this embedding. -/
def str (s : String) : List Char := s.data

/-- ASCII lower-casing, as performed by `String.prototype.toLowerCase` on the
identifiers appearing in this data set. -/
def jsToLower (s : List Char) : List Char :=
  s.map (fun c => if 'A' ≤ c ∧ c ≤ 'Z' then Char.ofNat (c.toNat + 32) else c)

/-- ASCII upper-casing, as performed by `String.prototype.toUpperCase`. -/
def jsToUpper (s : List Char) : List Char :=
  s.map (fun c => if 'a' ≤ c ∧ c ≤ 'z' then Char.ofNat (c.toNat - 32) else c)

/-- The whitespace characters recognised by `String.prototype.trim` and the
`\s` regex class (restricted to the ASCII range appearing in the data). -/
def isJsSpace (c : Char) : Bool :=
  c = ' ' || c = '\t' || c = '\n' || c = '\r' || c.toNat = 11 || c.toNat = 12

/-- `String.prototype.trim`. -/
def jsTrim (s : List Char) : List Char :=
  ((s.dropWhile isJsSpace).reverse.dropWhile isJsSpace).reverse

/-- `pat` is a prefix of the first argument (used to search substrings). -/
def beginsWith : List Char → List Char → Bool
  | _, [] => true
  | [], _ :: _ => false
  | c :: cs, p :: ps => c = p && beginsWith cs ps

/-- `String.prototype.includes pat` for a non-empty pattern. -/
def hasSubstr : List Char → List Char → Bool
  | [], pat => beginsWith [] pat
  | c :: rest, pat => beginsWith (c :: rest) pat || hasSubstr rest pat

/-- Lexicographic string order by character code; this models the ordering
that `localeCompare` induces on the ASCII condition-type tokens compared in
the source. -/
def strLe : List Char → List Char → Bool
  | [], _ => true
  | _ :: _, [] => false
  | a :: as, b :: bs => a.toNat < b.toNat || (a.toNat = b.toNat && strLe as bs)

/-- A JavaScript value as it appears in the raw data records: `null`
(or an absent field read as `undefined`), a boolean, a finite number, or a
string. -/
inductive JVal where
  | jnull
  | jbool (b : Bool)
  | jnum (q : Rat)
  | jstr (s : List Char)
deriving DecidableEq, Repr

/-- JavaScript truthiness of a possibly-absent value (absent = `undefined`,
which is falsy). -/
def truthy : Option JVal → Bool
  | none => false
  | some .jnull => false
  | some (.jbool b) => b
  | some (.jnum q) => q ≠ 0
  | some (.jstr s) => s ≠ []

/-- The JavaScript `a || b` on possibly-absent values. -/
def jOr (a b : Option JVal) : Option JVal :=
  if truthy a then a else b

/-- `a || b` for string-valued fields (first truthy, i.e. non-empty, wins). -/
def strOrOpt (a b : Option (List Char)) : Option (List Char) :=
  match a with
  | some s => if s ≠ [] then some s else b
  | none => b

/-- `a || fallback` for a string-valued field with a plain string fallback. -/
def strOr (a : Option (List Char)) (b : List Char) : List Char :=
  match a with
  | some s => if s ≠ [] then s else b
  | none => b

/-! ## Numeric coercion (`toNumericValue`, lines 2097–2120)

The string branch applies the regex `-?\d+(?:\.\d+)?(?:[eE][+-]?\d+)?` to the
comma-stripped, trimmed input and parses the first match. -/

def isDigitChar (c : Char) : Bool := '0' ≤ c && c ≤ '9'

def digitVal (c : Char) : Nat := c.toNat - 48

/-- Greedy digit run: the matched digits and the rest of the input. -/
def takeDigits : List Char → (List Char × List Char)
  | [] => ([], [])
  | c :: rest =>
    if isDigitChar c then
      let p := takeDigits rest
      (c :: p.1, p.2)
    else ([], c :: rest)

def digitsToNat (ds : List Char) : Nat :=
  ds.foldl (fun acc c => acc * 10 + digitVal c) 0

/-- Attempt the numeric regex at the start of the input and compute the value
of the match (`Number(match[0])`). The fractional and exponent groups are
optional: a `.` or `e` not followed by digits is left unconsumed. -/
def matchNumberAt (l : List Char) : Option Rat :=
  let signed : Bool × List Char :=
    match l with
    | '-' :: rest => (true, rest)
    | _ => (false, l)
  let ip := takeDigits signed.2
  if ip.1 = [] then none
  else
    let fp : List Char × List Char :=
      match ip.2 with
      | '.' :: rest =>
        let ds := takeDigits rest
        if ds.1 = [] then ([], '.' :: rest) else ds
      | r => ([], r)
    let ex : Bool × List Char :=
      match fp.2 with
      | 'e' :: '+' :: rest => (false, (takeDigits rest).1)
      | 'e' :: '-' :: rest => (true, (takeDigits rest).1)
      | 'e' :: rest => (false, (takeDigits rest).1)
      | 'E' :: '+' :: rest => (false, (takeDigits rest).1)
      | 'E' :: '-' :: rest => (true, (takeDigits rest).1)
      | 'E' :: rest => (false, (takeDigits rest).1)
      | _ => (false, [])
    let base : Rat :=
      (digitsToNat ip.1 : Rat) + (digitsToNat fp.1 : Rat) / ((10 : Rat) ^ fp.1.length)
    let withSign : Rat := if signed.1 then -base else base
    let expVal : Int :=
      if ex.2 = [] then 0
      else if ex.1 then -(digitsToNat ex.2 : Int) else (digitsToNat ex.2 : Int)
    some (withSign * (10 : Rat) ^ expVal)

/-- Scan for the leftmost position where the numeric regex matches. -/
def scanNumber : List Char → Option Rat
  | [] => none
  | c :: rest =>
    match matchNumberAt (c :: rest) with
    | some q => some q
    | none => scanNumber rest

/-- `toNumericValue` (lines 2097–2120): permissive numeric coercion. `null`
and `''` give `null`; numbers pass through (they are finite in this model);
strings are comma-stripped, trimmed and matched against the numeric regex;
booleans map to 1/0. -/
def toNumericValue : JVal → Option Rat
  | .jnull => none
  | .jnum q => some q
  | .jstr s =>
    if s = [] then none
    else
      let normalized := jsTrim (s.filter (fun c => c ≠ ','))
      if normalized = [] then none
      else scanNumber normalized
  | .jbool b => some (if b then 1 else 0)

/-- `normalizeLookupKey` (lines 2090–2095) on a string-valued candidate:
`null` for absent or all-whitespace values, otherwise the trimmed,
lower-cased key. -/
def normalizeLookupKey : Option (List Char) → Option (List Char)
  | none => none
  | some s =>
    let t := jsTrim s
    if t = [] then none else some (jsToLower t)

/-! ## ES `Map` model -/

/-- `Map.prototype.get`. -/
def mget {β : Type _} (m : List (List Char × β)) (k : List Char) : Option β :=
  (m.find? (fun p => p.1 = k)).map (·.2)

/-- `Map.prototype.set`.  Only `mget` observations of the map are used in
this development (the one per-value iteration in the source, the in-place
sort of the contract index, is modelled as a map over the association list),
so the binding of `k` may be stored at the front: `mget` cannot distinguish
this from in-place overwrite. -/
def mset {β : Type _} (m : List (List Char × β)) (k : List Char) (v : β) :
    List (List Char × β) :=
  (k, v) :: m.filter (fun p => !(p.1 = k : Bool))

theorem mget_mset {β : Type _} (m : List (List Char × β)) (k k' : List Char) (v : β) :
    mget (mset m k v) k' = if k' = k then some v else mget m k' := by
  unfold mget mset
  by_cases hk' : k' = k
  · subst hk'
    simp [List.find?]
  · have hhead : (decide (k = k')) = false := by
      simp only [decide_eq_false_iff_not]
      exact fun h => hk' h.symm
    simp only [List.find?, hhead, if_neg hk']
    induction m with
    | nil => rfl
    | cons p rest ih =>
      by_cases hp : p.1 = k
      · have hpk' : (decide (p.1 = k')) = false := by
          simp only [decide_eq_false_iff_not]
          exact fun h => hk' (h.symm.trans hp)
        simp only [List.filter_cons, hp, decide_True, Bool.not_true, if_neg,
          Bool.false_eq_true, not_false_iff, List.find?, hpk', ih, hhead]
      · have hpB : (decide (p.1 = k)) = false := by
          simp only [decide_eq_false_iff_not]; exact hp
        simp only [List.filter_cons, hpB, Bool.not_false, if_pos, List.find?]
        cases hpk : (decide (p.1 = k')) with
        | true => rfl
        | false => exact ih

/-! ## Storage records (`evaluateStorageRecord`, `pickPreferredStorageRecord`,
`storageIndex` — lines 2155–2337)

Identifier-like fields are modelled as strings and numeric telemetry fields
as raw `JVal`s.  The `X || x` casing pairs of the timestamp chain are
collapsed into the canonically-cased field.  `StorageItems`/`Items` carry the
cargo items used by the ship-load aggregator further below. -/

/-- A cargo item of a storage record (`StorageItems` entries).  The casing
pairs `ShipmentItemId || ShipmentItemID` etc. are collapsed; amount/weight/
volume fields are not read by the embedded logic and are omitted. -/
structure StorageItem where
  ShipmentItemId : Option (List Char)
  MaterialId : Option (List Char)
  ItemId : Option (List Char)
  Id : Option (List Char)
  Type' : Option (List Char)
deriving DecidableEq, Repr

structure StorageRecord where
  -- the 17 candidate key fields of `storageIndex` (lines 2305–2323)
  StorageId : Option (List Char)
  StorageID : Option (List Char)
  StorageNaturalId : Option (List Char)
  StorageNaturalID : Option (List Char)
  StorageName : Option (List Char)
  StorageLabel : Option (List Char)
  AddressableId : Option (List Char)
  AddressableID : Option (List Char)
  AddressId : Option (List Char)
  AddressID : Option (List Char)
  Id : Option (List Char)
  ID : Option (List Char)
  Name : Option (List Char)
  NaturalId : Option (List Char)
  NaturalID : Option (List Char)
  LocationId : Option (List Char)
  OwnerId : Option (List Char)
  -- scoring fields of `evaluateStorageRecord` (`Type'` models the `Type` field,
  -- whose name is reserved in Lean)
  Type' : Option (List Char)
  FixedStore : Option Bool
  WeightCapacity : Option JVal
  VolumeCapacity : Option JVal
  WeightLoad : Option JVal
  VolumeLoad : Option JVal
  -- timestamp chain (each field models the `X || x` pair of the source)
  Timestamp : Option JVal
  LastUpdated : Option JVal
  UpdatedAt : Option JVal
  -- cargo items (`StorageItems` / `Items` fallback) and percent fields,
  -- used by the ship-load aggregator; `percentFieldValues` lists the values
  -- of the six `STORAGE_PERCENT_FIELDS` in field-list order
  StorageItems : Option (List StorageItem)
  Items : Option (List StorageItem)
  percentFieldValues : List (Option JVal)
deriving DecidableEq, Repr

/-- A storage record with every field absent. -/
def blankStorage : StorageRecord :=
  ⟨none, none, none, none, none, none, none, none, none, none, none, none,
   none, none, none, none, none, none, none, none, none, none, none, none,
   none, none, none, none, []⟩

/-- `pickNumericValue` (lines 2142–2153) applied to the values of a field
list: the first present field whose `toNumericValue` is non-null wins. -/
def pickNumericValue (fields : List (Option JVal)) : Option Rat :=
  fields.findSome? (fun f => f.bind toNumericValue)

/-- The evaluation produced by `evaluateStorageRecord`: an additive score and
a parsed timestamp, where `none` stands for the `-Infinity` assigned to a
missing or unparseable timestamp. -/
structure StorageEval where
  score : Int
  timestamp : Option Int
deriving DecidableEq, Repr

/-- Lower-case the record type tag and keep only the letters `a`–`z`
(`rawType.replace(/[^a-z]/g, '')`). -/
def normalizedStorageType (t : Option (List Char)) : List Char :=
  (match t with
   | some s => jsToLower s
   | none => []).filter (fun c => 'a' ≤ c && c ≤ 'z')

/-- `evaluateStorageRecord` (lines 2157–2227).  `dateParse` is the host's
`Date.parse`, returning `none` for `NaN`; the `WeakMap` score cache of the
source is pure memoisation and is dropped.  Records are values here, so the
`!record` guard of the source cannot fire. -/
def evaluateStorageRecord (dateParse : JVal → Option Int) (r : StorageRecord) :
    StorageEval :=
  let normalizedType := normalizedStorageType r.Type'
  let typeScore : Int :=
    if hasSubstr normalizedType (str "shipstore") then 300
    else if hasSubstr normalizedType (str "ship") && hasSubstr normalizedType (str "store") then 240
    else if hasSubstr normalizedType (str "ship") then 180
    else if hasSubstr normalizedType (str "ftlfuel") then 90
    else if hasSubstr normalizedType (str "stlfuel") then 80
    else if hasSubstr normalizedType (str "store") then 60
    else 0
  let score : Int := typeScore
    + (if r.FixedStore = some false then 25 else 0)
    + (if (pickNumericValue [r.WeightCapacity]).isSome then 40 else 0)
    + (if (pickNumericValue [r.VolumeCapacity]).isSome then 40 else 0)
    + (if (pickNumericValue [r.WeightLoad]).isSome then 20 else 0)
    + (if (pickNumericValue [r.VolumeLoad]).isSome then 20 else 0)
    + (if truthy (r.Name.map JVal.jstr) then 5 else 0)
  let timestampRaw : Option JVal := jOr r.Timestamp (jOr r.LastUpdated r.UpdatedAt)
  let timestamp : Option Int :=
    match timestampRaw with
    | some (.jstr s) => dateParse (.jstr s)
    | some (.jnum q) => dateParse (.jnum q)
    | _ => none
  ⟨score, timestamp⟩

/-- `a > b` on parsed timestamps, where `none` is `-Infinity`
(`-Infinity > -Infinity` is false, matching the source's comparisons). -/
def tsGt : Option Int → Option Int → Bool
  | some a, some b => a > b
  | some _, none => true
  | none, _ => false

/-- `pickPreferredStorageRecord` (lines 2229–2262).  The source's reference
equality `existing === candidate` is modelled as structural equality: when it
differs (two equal-valued objects), every later branch also returns the
existing record, so the result is unchanged. -/
def pickPreferredStorageRecord (dateParse : JVal → Option Int)
    (existing candidate : Option StorageRecord) : Option StorageRecord :=
  match candidate with
  | none => existing
  | some c =>
    match existing with
    | none => some c
    | some e =>
      if e = c then some e
      else
        let existingEval := evaluateStorageRecord dateParse e
        let candidateEval := evaluateStorageRecord dateParse c
        if candidateEval.score > existingEval.score then some c
        else if candidateEval.score < existingEval.score then some e
        else if tsGt candidateEval.timestamp existingEval.timestamp then some c
        else if tsGt existingEval.timestamp candidateEval.timestamp then some e
        else some e

/-- The candidate key fields of one record, in the order of lines 2305–2323. -/
def candidateKeys (r : StorageRecord) : List (Option (List Char)) :=
  [r.StorageId, r.StorageID, r.StorageNaturalId, r.StorageNaturalID,
   r.StorageName, r.StorageLabel, r.AddressableId, r.AddressableID,
   r.AddressId, r.AddressID, r.Id, r.ID, r.Name, r.NaturalId, r.NaturalID,
   r.LocationId, r.OwnerId]

/-- One candidate key's insertion into the storage index (the body of the
`candidateKeys.forEach` of lines 2325–2334). -/
def storageKeyStep (dateParse : JVal → Option Int) (r : StorageRecord)
    (idx : List (List Char × StorageRecord)) (candidate : Option (List Char)) :
    List (List Char × StorageRecord) :=
  match normalizeLookupKey candidate with
  | none => idx
  | some normalized =>
    let existing := mget idx normalized
    match pickPreferredStorageRecord dateParse existing (some r) with
    | none => idx
    | some preferred =>
      if existing = some preferred then idx else mset idx normalized preferred

/-- One record's insertions into the storage index. -/
def storageIndexInsert (dateParse : JVal → Option Int)
    (index : List (List Char × StorageRecord)) (r : StorageRecord) :
    List (List Char × StorageRecord) :=
  (candidateKeys r).foldl (storageKeyStep dateParse r) index

/-- One (possibly null) raw record's contribution to the storage index. -/
def storageRecordStep (dateParse : JVal → Option Int)
    (idx : List (List Char × StorageRecord)) (rec? : Option StorageRecord) :
    List (List Char × StorageRecord) :=
  match rec? with
  | none => idx
  | some r => storageIndexInsert dateParse idx r

/-- `storageIndex` (lines 2298–2337): fold every (non-null) storage record
into the per-key index. -/
def storageIndex (dateParse : JVal → Option Int)
    (storageData : List (Option StorageRecord)) :
    List (List Char × StorageRecord) :=
  storageData.foldl (storageRecordStep dateParse) []

/-- A record carries the normalized key `k`. -/
def recordHasKey (r : StorageRecord) (k : List Char) : Bool :=
  (candidateKeys r).any (fun c => normalizeLookupKey c = some k)

/-- Strictly worse in the selector's ordering: lower score, or equal score
and strictly earlier (possibly `-Infinity`) timestamp. -/
def evalLt (a b : StorageEval) : Prop :=
  a.score < b.score ∨ (a.score = b.score ∧ tsGt b.timestamp a.timestamp = true)

/-! ### Basic lemmas about `pickPreferredStorageRecord` -/

theorem tsGt_asymm {a b : Option Int} (h : tsGt a b = true) : tsGt b a = false := by
  cases a <;> cases b <;> simp_all [tsGt]
  omega

theorem tsGt_irrefl (a : Option Int) : tsGt a a = false := by
  cases a <;> simp [tsGt]

theorem evalLt_irrefl (a : StorageEval) : ¬ evalLt a a := by
  rintro (h | ⟨-, h⟩)
  · omega
  · simp [tsGt_irrefl] at h

/-- The selector always returns either the existing record or the candidate. -/
theorem pick_or (d : JVal → Option Int) (x : Option StorageRecord) (r : StorageRecord) :
    pickPreferredStorageRecord d x (some r) = x ∨
      pickPreferredStorageRecord d x (some r) = some r := by
  cases x with
  | none => right; rfl
  | some e =>
    simp only [pickPreferredStorageRecord]
    split_ifs with h <;> simp_all

/-- A non-null candidate never produces a null selection. -/
theorem pick_ne_none (d : JVal → Option Int) (x : Option StorageRecord) (r : StorageRecord) :
    pickPreferredStorageRecord d x (some r) ≠ none := by
  cases x with
  | none => simp [pickPreferredStorageRecord]
  | some e =>
    simp only [pickPreferredStorageRecord]
    split_ifs <;> simp

/-- A strictly better candidate wins. -/
theorem pick_better (d : JVal → Option Int) (e c : StorageRecord)
    (h : evalLt (evaluateStorageRecord d e) (evaluateStorageRecord d c)) :
    pickPreferredStorageRecord d (some e) (some c) = some c := by
  by_cases hec : e = c
  · exact absurd (hec ▸ h) (evalLt_irrefl _)
  · unfold pickPreferredStorageRecord
    rcases h with h | ⟨hs, ht⟩
    · simp only [hec, if_neg, if_pos h, not_false_iff]
    · have h1 : ¬ ((evaluateStorageRecord d c).score > (evaluateStorageRecord d e).score) := by omega
      have h2 : ¬ ((evaluateStorageRecord d c).score < (evaluateStorageRecord d e).score) := by omega
      simp only [hec, if_neg, h1, h2, ht, if_pos, if_true, not_false_iff]

/-- A candidate that equals the held record, or is strictly worse, is
rejected: the held record is kept. -/
theorem pick_absorb (d : JVal → Option Int) (m r : StorageRecord)
    (h : r = m ∨ evalLt (evaluateStorageRecord d r) (evaluateStorageRecord d m)) :
    pickPreferredStorageRecord d (some m) (some r) = some m := by
  rcases h with h | h
  · subst h; simp [pickPreferredStorageRecord]
  · by_cases hmr : m = r
    · exact absurd (hmr ▸ h) (evalLt_irrefl _)
    · unfold pickPreferredStorageRecord
      rcases h with h | ⟨hs, ht⟩
      · have h1 : ¬ ((evaluateStorageRecord d r).score > (evaluateStorageRecord d m).score) := by omega
        simp only [hmr, if_neg, h1, if_pos h, not_false_iff, if_true]
      · have h1 : ¬ ((evaluateStorageRecord d r).score > (evaluateStorageRecord d m).score) := by omega
        have h2 : ¬ ((evaluateStorageRecord d r).score < (evaluateStorageRecord d m).score) := by omega
        have h3 : tsGt (evaluateStorageRecord d r).timestamp (evaluateStorageRecord d m).timestamp = false :=
          tsGt_asymm ht
        simp only [hmr, if_neg, h1, h2, h3, ht, not_false_iff, Bool.false_eq_true, if_false,
          if_pos, if_true]

/-- Selecting against the same candidate twice is the same as selecting once. -/
theorem pick_idem (d : JVal → Option Int) (x : Option StorageRecord) (r : StorageRecord) :
    pickPreferredStorageRecord d (pickPreferredStorageRecord d x (some r)) (some r) =
      pickPreferredStorageRecord d x (some r) := by
  rcases pick_or d x r with h | h
  · rw [h]; exact h
  · rw [h]; simp [pickPreferredStorageRecord]

/-! ### Per-key semantics of the storage index -/

/-- The effect that one raw record has on the entry of a fixed key `k`. -/
def perKeyStep (d : JVal → Option Int) (k : List Char)
    (acc : Option StorageRecord) (r? : Option StorageRecord) : Option StorageRecord :=
  match r? with
  | none => acc
  | some r =>
    if recordHasKey r k then pickPreferredStorageRecord d acc (some r) else acc

theorem mget_keyfold (d : JVal → Option Int) (r : StorageRecord) (k : List Char) :
    ∀ (ks : List (Option (List Char))) (idx : List (List Char × StorageRecord)),
      mget (ks.foldl (storageKeyStep d r) idx) k =
        if ks.any (fun c => normalizeLookupKey c = some k) then
          pickPreferredStorageRecord d (mget idx k) (some r)
        else mget idx k := by
  intro ks
  induction ks with
  | nil => intro idx; simp
  | cons c ks ih =>
    intro idx
    simp only [List.foldl_cons, List.any_cons, ih]
    by_cases hc : normalizeLookupKey c = some k
    · -- the head candidate normalizes to `k`
      have hstep : mget (storageKeyStep d r idx c) k =
          pickPreferredStorageRecord d (mget idx k) (some r) := by
        unfold storageKeyStep
        cases hp : pickPreferredStorageRecord d (mget idx k) (some r) with
        | none => exact absurd hp (pick_ne_none d _ r)
        | some p =>
          by_cases hex : mget idx k = some p
          · simp only [hc, hp]
            rw [if_pos hex]
            exact hex
          · simp only [hc, hp]
            rw [if_neg hex]
            simp [mget_mset]
      rw [hstep]
      simp only [hc, decide_True, Bool.true_or, if_pos, if_true]
      split_ifs with hany
      · exact pick_idem d (mget idx k) r
      · rfl
    · -- the head candidate touches some other key (or none at all)
      have hstep : mget (storageKeyStep d r idx c) k = mget idx k := by
        unfold storageKeyStep
        cases hn : normalizeLookupKey c with
        | none => simp only [hn]
        | some n =>
          have hnk : ¬ (k = n) := fun h => hc (by rw [hn, h])
          cases hp : pickPreferredStorageRecord d (mget idx n) (some r) with
          | none => simp only [hn, hp]
          | some p =>
            by_cases hex : mget idx n = some p
            · simp only [hn, hp, if_pos hex]
            · simp only [hn, hp, if_neg hex, mget_mset, if_neg hnk]
      rw [hstep]
      have hcb : (decide (normalizeLookupKey c = some k)) = false := by
        simp [hc]
      simp only [hcb, Bool.false_or]

theorem mget_storageIndexInsert (d : JVal → Option Int) (r : StorageRecord)
    (k : List Char) (idx : List (List Char × StorageRecord)) :
    mget (storageIndexInsert d idx r) k =
      if recordHasKey r k then pickPreferredStorageRecord d (mget idx k) (some r)
      else mget idx k := by
  unfold storageIndexInsert recordHasKey
  exact mget_keyfold d r k (candidateKeys r) idx

theorem mget_storageIndex_fold (d : JVal → Option Int) (k : List Char) :
    ∀ (l : List (Option StorageRecord)) (idx : List (List Char × StorageRecord)),
      mget (l.foldl (storageRecordStep d) idx) k =
        l.foldl (perKeyStep d k) (mget idx k) := by
  intro l
  induction l with
  | nil => intro idx; rfl
  | cons x l ih =>
    intro idx
    cases x with
    | none => simpa [storageRecordStep, perKeyStep] using ih idx
    | some r =>
      simp only [List.foldl_cons, storageRecordStep, perKeyStep]
      rw [ih, mget_storageIndexInsert]

/-- Folding the per-key selection over a candidate list that contains a
unique maximum `m` (every other record carrying the key is strictly worse)
yields `m`, regardless of the order of the list. -/
theorem perKey_fold_max (d : JVal → Option Int) (k : List Char) (m : StorageRecord)
    (hmk : recordHasKey m k = true) :
    ∀ (l : List (Option StorageRecord)) (acc : Option StorageRecord),
      (∀ r, some r ∈ l → recordHasKey r k = true → r ≠ m →
        evalLt (evaluateStorageRecord d r) (evaluateStorageRecord d m)) →
      (acc = none ∨ acc = some m ∨
        ∃ a, acc = some a ∧ a ≠ m ∧
          evalLt (evaluateStorageRecord d a) (evaluateStorageRecord d m)) →
      (some m ∈ l ∨ acc = some m) →
      l.foldl (perKeyStep d k) acc = some m := by
  intro l
  induction l with
  | nil =>
    intro acc _ _ hin
    rcases hin with hin | hin
    · exact absurd hin (List.not_mem_nil _)
    · simpa using hin
  | cons x l ih =>
    intro acc hworse hinv hin
    have hworse' : ∀ r, some r ∈ l → recordHasKey r k = true → r ≠ m →
        evalLt (evaluateStorageRecord d r) (evaluateStorageRecord d m) :=
      fun r hr => hworse r (List.mem_cons_of_mem _ hr)
    simp only [List.foldl_cons]
    cases x with
    | none =>
      apply ih _ hworse' hinv
      rcases hin with hin | hin
      · rcases List.mem_cons.mp hin with hin | hin
        · exact absurd hin (by simp)
        · exact Or.inl hin
      · exact Or.inr hin
    | some r =>
      by_cases hrk : recordHasKey r k = true
      · simp only [perKeyStep, if_pos hrk]
        by_cases hrm : r = m
        · subst hrm
          -- the maximum itself arrives: it is selected whatever `acc` holds
          have hacc : pickPreferredStorageRecord d acc (some r) = some r := by
            rcases hinv with h | h | ⟨a, ha, ham, haw⟩
            · rw [h]; rfl
            · rw [h]; simp [pickPreferredStorageRecord]
            · rw [ha]; exact pick_better d a r haw
          rw [hacc]
          exact ih _ hworse' (Or.inr (Or.inl rfl)) (Or.inr rfl)
        · have hrw := hworse r (List.mem_cons_self _ _) hrk hrm
          -- a strictly worse rival arrives
          have hinv' : pickPreferredStorageRecord d acc (some r) = none ∨
              pickPreferredStorageRecord d acc (some r) = some m ∨
              ∃ a, pickPreferredStorageRecord d acc (some r) = some a ∧ a ≠ m ∧
                evalLt (evaluateStorageRecord d a) (evaluateStorageRecord d m) := by
            rcases hinv with h | h | ⟨a, ha, ham, haw⟩
            · rw [h]
              exact Or.inr (Or.inr ⟨r, rfl, hrm, hrw⟩)
            · rw [h, pick_absorb d m r (Or.inr hrw)]
              exact Or.inr (Or.inl rfl)
            · rw [ha]
              rcases pick_or d (some a) r with hp | hp
              · rw [hp]
                exact Or.inr (Or.inr ⟨a, rfl, ham, haw⟩)
              · rw [hp]
                exact Or.inr (Or.inr ⟨r, rfl, hrm, hrw⟩)
          apply ih _ hworse' hinv'
          rcases hin with hin | hin
          · rcases List.mem_cons.mp hin with hin | hin
            · exact absurd (Option.some.inj hin).symm hrm
            · exact Or.inl hin
          · rcases hinv with h | h | ⟨a, ha, ham, haw⟩
            · rw [hin] at h; cases h
            · rw [hin]
              rw [pick_absorb d m r (Or.inr hrw)]
              exact Or.inr rfl
            · rw [hin] at ha
              exact absurd (Option.some.inj ha) (by rintro rfl; exact ham rfl)
      · simp only [perKeyStep, if_neg hrk]
        apply ih _ hworse' hinv
        rcases hin with hin | hin
        · rcases List.mem_cons.mp hin with hin | hin
          · have hm : m = r := Option.some.inj hin
            exact absurd (hm ▸ hmk) hrk
          · exact Or.inl hin
        · exact Or.inr hin

/-- The storage index maps `k` to the unique best record carrying `k`. -/
theorem mget_storageIndex_max (d : JVal → Option Int)
    (l : List (Option StorageRecord)) (k : List Char) (m : StorageRecord)
    (hmk : recordHasKey m k = true) (hmem : some m ∈ l)
    (hmax : ∀ r, some r ∈ l → recordHasKey r k = true → r ≠ m →
      evalLt (evaluateStorageRecord d r) (evaluateStorageRecord d m)) :
    mget (storageIndex d l) k = some m := by
  unfold storageIndex
  rw [mget_storageIndex_fold]
  exact perKey_fold_max d k m hmk l (mget ([] : List (List Char × StorageRecord)) k)
    hmax (Or.inl rfl) (Or.inl hmem)

/-- A tie on both score and timestamp keeps the first-seen (existing) record. -/
theorem pick_tie (d : JVal → Option Int) (e c : StorageRecord)
    (hs : (evaluateStorageRecord d c).score = (evaluateStorageRecord d e).score)
    (ht : (evaluateStorageRecord d c).timestamp = (evaluateStorageRecord d e).timestamp) :
    pickPreferredStorageRecord d (some e) (some c) = some e := by
  by_cases hec : e = c
  · simp [pickPreferredStorageRecord, hec]
  · have h1 : ¬ ((evaluateStorageRecord d c).score > (evaluateStorageRecord d e).score) := by
      omega
    have h2 : ¬ ((evaluateStorageRecord d c).score < (evaluateStorageRecord d e).score) := by
      omega
    have h3 : tsGt (evaluateStorageRecord d c).timestamp (evaluateStorageRecord d e).timestamp
        = false := by rw [ht]; exact tsGt_irrefl _
    have h4 : tsGt (evaluateStorageRecord d e).timestamp (evaluateStorageRecord d c).timestamp
        = false := by rw [ht]; exact tsGt_irrefl _
    simp [pickPreferredStorageRecord, hec, h1, h2, h3, h4]

/-! ### Claim C1 — order (in)dependence of the storage selection -/

/-- Two distinct storage records that tie on score and timestamp and share a
candidate key. -/
def storageCexA : StorageRecord :=
  { blankStorage with StorageId := some (str "s1"), Name := some (str "a") }

def storageCexB : StorageRecord :=
  { blankStorage with StorageId := some (str "s1"), Name := some (str "b") }

/-- C1, counterexample.  The claim asserts order independence "including when
two distinct records tie on both score and parsed timestamp"; but on a tie
`pickPreferredStorageRecord` keeps the first-seen record, so permuting the
input list changes the selection: the two records below tie (equal additive
scores, both timestamps missing), share key `"s1"`, and each ordering of the
same two-element list selects a different record. -/
theorem storageIndex_tie_order_dependent :
    storageCexA ≠ storageCexB
    ∧ ([some storageCexA, some storageCexB] : List (Option StorageRecord)).Perm
        [some storageCexB, some storageCexA]
    ∧ mget (storageIndex (fun _ => none) [some storageCexA, some storageCexB])
        (str "s1") = some storageCexA
    ∧ mget (storageIndex (fun _ => none) [some storageCexB, some storageCexA])
        (str "s1") = some storageCexB := by
  refine ⟨by decide, List.Perm.swap _ _ _, by decide, by decide⟩

/-- C1, amended.  The storage selection is stable under permutation of the
input list whenever the `(score, timestamp)` maximum among the records
carrying the looked-up key is attained by a unique record; when two distinct
records tie on both score and parsed timestamp the first-seen record wins,
which depends on the iteration order (see the counterexample). -/
theorem storageIndex_perm_stable (d : JVal → Option Int)
    (l₁ l₂ : List (Option StorageRecord)) (k : List Char) (m : StorageRecord)
    (hperm : l₁.Perm l₂)
    (hmem : some m ∈ l₁)
    (hkey : recordHasKey m k = true)
    (hmax : ∀ r, some r ∈ l₁ → recordHasKey r k = true → r ≠ m →
      evalLt (evaluateStorageRecord d r) (evaluateStorageRecord d m)) :
    mget (storageIndex d l₁) k = some m ∧ mget (storageIndex d l₂) k = some m := by
  refine ⟨mget_storageIndex_max d l₁ k m hkey hmem hmax, ?_⟩
  exact mget_storageIndex_max d l₂ k m hkey (hperm.subset hmem)
    (fun r hr => hmax r (hperm.symm.subset hr))

theorem storageIndex_perm_stable_witness :
    mget (storageIndex (fun _ => none) [some storageCexA]) (str "s1") = some storageCexA :=
  (storageIndex_perm_stable (fun _ => none) [some storageCexA] [some storageCexA]
    (str "s1") storageCexA (List.Perm.refl _) (by decide) (by decide)
    (fun r hr _ hne => absurd (by simpa using hr) hne)).1

/-! ### Claim C2 — the pairwise preference policy -/

/-- C2.  Whenever the selector compares two candidate records: a strictly
higher additive score wins (conjuncts 1–2); on equal scores the later parsed
timestamp wins (3–4); a record whose timestamp chain is entirely missing
evaluates to the `-Infinity` timestamp (5); on equal scores a candidate with
a missing/unparseable timestamp never displaces the held record (6); and on
a tie in both score and timestamp the first-seen (held) record is kept (7). -/
theorem pickPreferredStorageRecord_policy (d : JVal → Option Int) (e c : StorageRecord) :
    ((evaluateStorageRecord d c).score > (evaluateStorageRecord d e).score →
      pickPreferredStorageRecord d (some e) (some c) = some c)
    ∧ ((evaluateStorageRecord d c).score < (evaluateStorageRecord d e).score →
      pickPreferredStorageRecord d (some e) (some c) = some e)
    ∧ ((evaluateStorageRecord d c).score = (evaluateStorageRecord d e).score →
      tsGt (evaluateStorageRecord d c).timestamp (evaluateStorageRecord d e).timestamp = true →
      pickPreferredStorageRecord d (some e) (some c) = some c)
    ∧ ((evaluateStorageRecord d c).score = (evaluateStorageRecord d e).score →
      tsGt (evaluateStorageRecord d e).timestamp (evaluateStorageRecord d c).timestamp = true →
      pickPreferredStorageRecord d (some e) (some c) = some e)
    ∧ (e.Timestamp = none → e.LastUpdated = none → e.UpdatedAt = none →
      (evaluateStorageRecord d e).timestamp = none)
    ∧ ((evaluateStorageRecord d c).score = (evaluateStorageRecord d e).score →
      (evaluateStorageRecord d c).timestamp = none →
      pickPreferredStorageRecord d (some e) (some c) = some e)
    ∧ ((evaluateStorageRecord d c).score = (evaluateStorageRecord d e).score →
      (evaluateStorageRecord d c).timestamp = (evaluateStorageRecord d e).timestamp →
      pickPreferredStorageRecord d (some e) (some c) = some e) := by
  refine ⟨?_, ?_, ?_, ?_, ?_, ?_, ?_⟩
  · intro h
    exact pick_better d e c (Or.inl h)
  · intro h
    exact pick_absorb d e c (Or.inr (Or.inl h))
  · intro hs ht
    exact pick_better d e c (Or.inr ⟨hs.symm, ht⟩)
  · intro hs ht
    exact pick_absorb d e c (Or.inr (Or.inr ⟨hs, ht⟩))
  · intro h1 h2 h3
    simp [evaluateStorageRecord, h1, h2, h3, jOr, truthy]
  · intro hs ht
    cases he : (evaluateStorageRecord d e).timestamp with
    | some t =>
      apply pick_absorb d e c
      refine Or.inr (Or.inr ⟨hs, ?_⟩)
      rw [he, ht]
      rfl
    | none =>
      exact pick_tie d e c hs (ht.trans he.symm)
  · intro hs ht
    exact pick_tie d e c hs ht

theorem pickPreferredStorageRecord_policy_witness :
    pickPreferredStorageRecord (fun _ => none)
        (some blankStorage) (some storageCexA) = some storageCexA :=
  (pickPreferredStorageRecord_policy (fun _ => none) blankStorage storageCexA).1
    (by decide)

/-! ## The system resolver (`systemLookups` lines 45–80,
`resolveSystemId` lines 313–351) -/

/-- An entry of `universeData` (only the fields the lookup construction
reads; `none` models an absent or non-string field). -/
structure UniverseEntry where
  Name : Option (List Char)
  NaturalId : Option (List Char)
deriving DecidableEq, Repr

/-- The environment `resolveSystemId` closes over.  `systemNames` is the
id → display-name object; `universeData` maps system ids to entry lists;
`graphSystems`/`graphNodes` are the key sets of `graph.systems` and
`graph.nodes` with truthy values (the source probes `graph.nodes` both by
indexing and by `Map.get`; both probes see the same key set here). -/
structure SystemEnv where
  systemNames : List (List Char × List Char)
  universeData : List (List Char × List UniverseEntry)
  graphSystems : List (List Char)
  graphNodes : List (List Char)
deriving DecidableEq, Repr

structure SystemLookups where
  byName : List (List Char × List Char)
  byNaturalId : List (List Char × List Char)
deriving DecidableEq, Repr

/-- `systemLookups` (lines 45–80): seed the name table from `systemNames`
(trimmed, lower-cased names; entries with a falsy id are skipped), then fold
every `universeData` entry into the name and natural-id tables. -/
def systemLookups (env : SystemEnv) : SystemLookups :=
  let byName0 : List (List Char × List Char) :=
    env.systemNames.foldl
      (fun m p => if p.1 = [] then m else mset m (jsToLower (jsTrim p.2)) p.1) []
  env.universeData.foldl
    (fun lk p =>
      if p.1 = [] then lk
      else
        p.2.foldl
          (fun lk e =>
            let entryName := e.Name.map jsTrim
            let entryNaturalId := e.NaturalId.map jsTrim
            let lk1 :=
              match entryName with
              | some n =>
                if n ≠ [] then { lk with byName := mset lk.byName (jsToLower n) p.1 }
                else lk
              | none => lk
            match entryNaturalId with
            | some n =>
              if n ≠ [] then
                { lk1 with byNaturalId := mset lk1.byNaturalId (jsToUpper n) p.1 }
              else lk1
            | none => lk1)
          lk)
    ⟨byName0, []⟩

/-- A JavaScript word character (`\w`), for the `\b` boundaries of
`/\bstation\b/g`. -/
def isWordChar (c : Char) : Bool :=
  ('a' ≤ c && c ≤ 'z') || ('A' ≤ c && c ≤ 'Z') || isDigitChar c || c = '_'

/-- The position after a match must not continue with a word character. -/
def boundaryAfter : List Char → Bool
  | [] => true
  | c :: _ => !isWordChar c

/-- `replace(/\bstation\b/g, '')` on an (already lower-cased) string.
`prev` records whether the character before the current position is a word
character (the left `\b`); the fuel argument only discharges termination and
always suffices because every step consumes at least one character. -/
def dropStationGo : Nat → Bool → List Char → List Char
  | 0, _, l => l
  | fuel + 1, prev, l =>
    match l with
    | [] => []
    | c :: rest =>
      if !prev && beginsWith (c :: rest) (str "station")
          && boundaryAfter ((c :: rest).drop 7) then
        dropStationGo fuel true ((c :: rest).drop 7)
      else c :: dropStationGo fuel (isWordChar c) rest

def dropStationToken (s : List Char) : List Char :=
  dropStationGo (s.length + 1) false s

/-- The characters kept by `replace(/[^a-z0-9\s-]/gi, '')`. -/
def keptNameChar (c : Char) : Bool :=
  ('a' ≤ c && c ≤ 'z') || ('A' ≤ c && c ≤ 'Z') || isDigitChar c || isJsSpace c || c = '-'

/-- `replace(/\s+/g, ' ')`: collapse every whitespace run to one space. -/
def collapseSpaces : List Char → List Char
  | [] => []
  | [c] => [if isJsSpace c then ' ' else c]
  | c :: d :: rest =>
    if isJsSpace c && isJsSpace d then collapseSpaces (d :: rest)
    else (if isJsSpace c then ' ' else c) :: collapseSpaces (d :: rest)

/-- The cleaned-name computation of lines 327–331 (applied to the already
lower-cased trimmed candidate). -/
def cleanCandidateName (s : List Char) : List Char :=
  jsTrim (collapseSpaces ((dropStationToken s).filter keptNameChar))

/-- Characters allowed inside the parenthesised code `([A-Za-z0-9\-]+)`. -/
def isParenCodeChar (c : Char) : Bool :=
  ('A' ≤ c && c ≤ 'Z') || ('a' ≤ c && c ≤ 'z') || isDigitChar c || c = '-'

/-- First match of `/\(([A-Za-z0-9\-]+)\)/`: the captured code of the first
parenthesised group, scanning left to right. -/
def parenCapture : List Char → Option (List Char)
  | [] => none
  | c :: rest =>
    if c = '(' then
      let run := rest.takeWhile isParenCodeChar
      if run ≠ [] ∧ (rest.drop run.length).head? = some ')' then some run
      else parenCapture rest
    else parenCapture rest

/-- Stage (1) of `resolveSystemId`: exact (case-sensitive) match of the
trimmed candidate against the known system ids — the `systemNames` object
(whose value must be truthy), `graph.systems`, and `graph.nodes`. -/
def resolveStep1 (env : SystemEnv) (id : List Char) : Option (List Char) :=
  if (match mget env.systemNames id with
      | some n => n ≠ []
      | none => false : Bool) then some id
  else if env.graphSystems.any (fun s => s = id) then some id
  else if env.graphNodes.any (fun s => s = id) then some id
  else none

/-- Stage (2): trimmed, lower-cased lookup in the name table. -/
def resolveStep2 (env : SystemEnv) (id : List Char) : Option (List Char) :=
  mget (systemLookups env).byName (jsToLower (jsTrim id))

/-- Stage (3): the cleaned name (the token `station` and the characters
outside `[a-z0-9\s-]` stripped, whitespace collapsed) retried against the
name table, when non-empty. -/
def resolveStep3 (env : SystemEnv) (id : List Char) : Option (List Char) :=
  let cleanedName := cleanCandidateName (jsToLower (jsTrim id))
  if cleanedName ≠ [] then mget (systemLookups env).byName cleanedName else none

/-- Stage (4): the extracted parenthesised code, upper-cased, against the
natural-id table. -/
def resolveStep4 (env : SystemEnv) (id : List Char) : Option (List Char) :=
  (parenCapture id).bind (fun code => mget (systemLookups env).byNaturalId (jsToUpper code))

/-- Stage (5): the whole candidate upper-cased against the natural-id table. -/
def resolveStep5 (env : SystemEnv) (id : List Char) : Option (List Char) :=
  mget (systemLookups env).byNaturalId (jsToUpper id)

/-- `resolveSystemId` (lines 313–351), transcribed with its nested
control flow.  String-typed candidates only: the resolver's
`typeof id === 'string'` guard always holds on this domain. -/
def resolveSystemId (env : SystemEnv) (candidate : List Char) : Option (List Char) :=
  let id := jsTrim candidate
  if id = [] then none
  else if (match mget env.systemNames id with
           | some n => n ≠ []
           | none => false : Bool) then some id
  else if env.graphSystems.any (fun s => s = id) then some id
  else if env.graphNodes.any (fun s => s = id) then some id
  else
    let lk := systemLookups env
    let normalizedName := jsToLower (jsTrim id)
    match mget lk.byName normalizedName with
    | some v => some v
    | none =>
      let cleanedName := cleanCandidateName normalizedName
      match (if cleanedName ≠ [] then mget lk.byName cleanedName else none) with
      | some v => some v
      | none =>
        match parenCapture id with
        | some code =>
          match mget lk.byNaturalId (jsToUpper code) with
          | some v => some v
          | none => mget lk.byNaturalId (jsToUpper id)
        | none => mget lk.byNaturalId (jsToUpper id)

/-- `resolveSystemId` is the first-success chain of its five lookup stages. -/
theorem resolveSystemId_eq_chain (env : SystemEnv) (cand : List Char) :
    resolveSystemId env cand =
      if jsTrim cand = [] then none
      else
        ((((resolveStep1 env (jsTrim cand)).orElse
            (fun _ => resolveStep2 env (jsTrim cand))).orElse
            (fun _ => resolveStep3 env (jsTrim cand))).orElse
            (fun _ => resolveStep4 env (jsTrim cand))).orElse
          (fun _ => resolveStep5 env (jsTrim cand)) := by
  by_cases h0 : jsTrim cand = []
  · simp [resolveSystemId, h0]
  · simp only [resolveSystemId, resolveStep1, resolveStep2, resolveStep3, resolveStep4,
      resolveStep5, if_neg h0]
    cases hb1 : (match mget env.systemNames (jsTrim cand) with
        | some n => n ≠ []
        | none => false : Bool) with
    | true => simp [Option.orElse]
    | false =>
      cases hb2 : env.graphSystems.any (fun s => s = jsTrim cand) with
      | true => simp [Option.orElse]
      | false =>
        cases hb3 : env.graphNodes.any (fun s => s = jsTrim cand) with
        | true => simp [Option.orElse]
        | false =>
          cases hm2 : mget (systemLookups env).byName (jsToLower (jsTrim (jsTrim cand))) with
          | some v => simp [Option.orElse]
          | none =>
            cases hm3 : (if cleanCandidateName (jsToLower (jsTrim (jsTrim cand))) ≠ [] then
                mget (systemLookups env).byName
                  (cleanCandidateName (jsToLower (jsTrim (jsTrim cand))))
              else none) with
            | some v => simp [Option.orElse]
            | none =>
              cases hp : parenCapture (jsTrim cand) with
              | some code =>
                cases hm4 : mget (systemLookups env).byNaturalId (jsToUpper code) with
                | some v => simp [Option.orElse, hp, hm4]
                | none => simp [Option.orElse, hp, hm4]
              | none => simp [Option.orElse, hp]

/-- C4.  The resolver tries its lookup stages in exactly this order and
returns at the first success — stage (1) exact match against the known
system ids, (2) the trimmed case-insensitive name table, (3) the name table
retried on the cleaned name, (4) the natural-id table on the extracted
parenthesised code, (5) the natural-id table on the upper-cased whole
string — and when every stage fails it returns `none` (the resolver is a
total function: "unresolved" is a value, not a thrown error). -/
theorem resolveSystemId_stage_order (env : SystemEnv) (cand : List Char) :
    (resolveSystemId env cand =
      if jsTrim cand = [] then none
      else
        ((((resolveStep1 env (jsTrim cand)).orElse
            (fun _ => resolveStep2 env (jsTrim cand))).orElse
            (fun _ => resolveStep3 env (jsTrim cand))).orElse
            (fun _ => resolveStep4 env (jsTrim cand))).orElse
          (fun _ => resolveStep5 env (jsTrim cand)))
    ∧ (resolveStep1 env (jsTrim cand) = none →
       resolveStep2 env (jsTrim cand) = none →
       resolveStep3 env (jsTrim cand) = none →
       resolveStep4 env (jsTrim cand) = none →
       resolveStep5 env (jsTrim cand) = none →
       resolveSystemId env cand = none) := by
  refine ⟨resolveSystemId_eq_chain env cand, ?_⟩
  intro h1 h2 h3 h4 h5
  rw [resolveSystemId_eq_chain]
  simp only [h1, h2, h3, h4, h5]
  split_ifs <;> simp [Option.orElse]

/-- An empty resolver environment (all lookup sources empty). -/
def emptySysEnv : SystemEnv := ⟨[], [], [], []⟩

theorem resolveSystemId_stage_order_witness :
    resolveSystemId emptySysEnv (str "zzz") = none :=
  (resolveSystemId_stage_order emptySysEnv (str "zzz")).2
    (by decide) (by decide) (by decide) (by decide) (by decide)

/-- An environment knowing the single system id `"SYS1"` (display name
`"Foo"`), with empty universe data and graph tables. -/
def sysCexEnv : SystemEnv := ⟨[(str "SYS1", str "Foo")], [], [], []⟩

/-- C3, counterexample.  The claim requires id matches to be
case-insensitive, but stage (1) compares the trimmed candidate against the
known ids case-sensitively, and no later stage looks at ids: the candidate
`"sys1"` equals the known system id `"SYS1"` up to case, yet resolution
returns `none`. -/
theorem resolveSystemId_id_case_cex :
    mget sysCexEnv.systemNames (str "SYS1") = some (str "Foo")
    ∧ jsTrim (str "sys1") = jsToLower (str "SYS1")
    ∧ resolveSystemId sysCexEnv (str "sys1") = none := by
  refine ⟨by decide, by decide, by decide⟩

/-- C3, amended.  After trimming surrounding whitespace, a candidate that
(1) equals a known system id *case-sensitively* resolves to that id; (2)
equals a known display name case-insensitively (and is not intercepted by
the id stage) resolves to that name's canonical id; (3) equals a known
natural id case-insensitively (and is not intercepted by an earlier stage)
resolves to that natural id's canonical id.  In each case the resolver
returns a canonical id rather than `none`. -/
theorem resolveSystemId_known_keys (env : SystemEnv) (cand : List Char) :
    (∀ nm, mget env.systemNames (jsTrim cand) = some nm → nm ≠ [] → jsTrim cand ≠ [] →
      resolveSystemId env cand = some (jsTrim cand))
    ∧ (∀ v, jsTrim cand ≠ [] →
      resolveStep1 env (jsTrim cand) = none →
      mget (systemLookups env).byName (jsToLower (jsTrim (jsTrim cand))) = some v →
      resolveSystemId env cand = some v)
    ∧ (∀ v, jsTrim cand ≠ [] →
      resolveStep1 env (jsTrim cand) = none →
      mget (systemLookups env).byName (jsToLower (jsTrim (jsTrim cand))) = none →
      (if cleanCandidateName (jsToLower (jsTrim (jsTrim cand))) ≠ [] then
        mget (systemLookups env).byName (cleanCandidateName (jsToLower (jsTrim (jsTrim cand))))
       else none) = none →
      parenCapture (jsTrim cand) = none →
      mget (systemLookups env).byNaturalId (jsToUpper (jsTrim cand)) = some v →
      resolveSystemId env cand = some v) := by
  refine ⟨?_, ?_, ?_⟩
  · intro nm hmg hnm h0
    rw [resolveSystemId_eq_chain, if_neg h0]
    simp [resolveStep1, hmg, hnm, Option.orElse]
  · intro v h0 h1 hm
    rw [resolveSystemId_eq_chain, if_neg h0]
    simp [h1, resolveStep2, hm, Option.orElse]
  · intro v h0 h1 hm2 hm3 hp hm5
    rw [resolveSystemId_eq_chain, if_neg h0]
    simp [h1, resolveStep2, resolveStep3, resolveStep4, resolveStep5,
      hm2, hm3, hp, hm5, Option.orElse]

theorem resolveSystemId_known_keys_witness :
    resolveSystemId sysCexEnv (str "SYS1") = some (str "SYS1") :=
  (resolveSystemId_known_keys sysCexEnv (str "SYS1")).1 (str "Foo")
    (by decide) (by decide) (by decide)

/-! ## The location selector (`selectDisplayLocation` lines 705–756,
with `getCandidateLabel` / `isGenericLabel` / `hasExplicitIdentifier`
lines 672–703) -/

/-- A `LocationDetail` candidate as consumed by `selectDisplayLocation`. -/
structure LocationCandidate where
  displayPriority : Option Int
  planetId : Option (List Char)
  planetNaturalId : Option (List Char)
  planetName : Option (List Char)
  stationId : Option (List Char)
  stationNaturalId : Option (List Char)
  stationName : Option (List Char)
  systemId : Option (List Char)
  systemName : Option (List Char)
  systemNaturalId : Option (List Char)
  displayName : Option (List Char)
  displayKind : Option (List Char)
deriving DecidableEq, Repr

/-- `getCandidateLabel` (lines 672–688): the first truthy label field in the
source's fallback order, trimmed; `''` when the candidate is null. -/
def getCandidateLabel (c? : Option LocationCandidate) : List Char :=
  match c? with
  | none => []
  | some c =>
    jsTrim (strOr c.displayName (strOr c.stationName (strOr c.planetName
      (strOr c.systemName (strOr c.systemNaturalId (strOr c.stationNaturalId
        (strOr c.planetNaturalId (strOr c.systemId (strOr c.stationId
          (strOr c.planetId []))))))))))

/-- `isGenericLabel` (lines 690–696). -/
def isGenericLabel (c? : Option LocationCandidate) : Bool :=
  let label := jsToLower (getCandidateLabel c?)
  if label = [] then true
  else label = str "station" || label = str "system" || label = str "planet"

/-- `hasExplicitIdentifier` (lines 698–703). -/
def hasExplicitIdentifier (c : LocationCandidate) : Bool :=
  (strOrOpt c.stationNaturalId (strOrOpt c.stationId
    (strOrOpt c.planetNaturalId c.planetId))).elim false (fun s => s ≠ [])

/-- The priority derived for one candidate (lines 713–716):
`displayPriority ?? (planet? 0 : station? 1 : system? 2 : 5)`. -/
def derivedPriority (c : LocationCandidate) : Int :=
  match c.displayPriority with
  | some p => p
  | none =>
    if truthy (c.planetId.map .jstr) || truthy (c.planetNaturalId.map .jstr) then 0
    else if truthy (c.stationId.map .jstr) || truthy (c.stationNaturalId.map .jstr) then 1
    else if truthy (c.systemId.map .jstr) then 2
    else 5

/-- The loop body of `selectDisplayLocation` (lines 709–753); the
accumulator carries the current best candidate with its priority. -/
def selectStep (acc : Option (LocationCandidate × Int)) (c? : Option LocationCandidate) :
    Option (LocationCandidate × Int) :=
  match c? with
  | none => acc
  | some cand =>
    let dp := derivedPriority cand
    match acc with
    | none => some (cand, dp)
    | some (best, bp) =>
      if dp < bp then some (cand, dp)
      else if dp ≠ bp then some (best, bp)
      else
        if hasExplicitIdentifier cand && !hasExplicitIdentifier best then some (cand, bp)
        else if !isGenericLabel (some cand) && isGenericLabel (some best) then some (cand, bp)
        else if getCandidateLabel (some cand) ≠ [] && getCandidateLabel (some best) = [] then
          some (cand, bp)
        else if getCandidateLabel (some cand) ≠ [] && getCandidateLabel (some best) ≠ []
            && (getCandidateLabel (some cand)).length > (getCandidateLabel (some best)).length + 2 then
          some (cand, bp)
        else some (best, bp)

/-- `selectDisplayLocation` (lines 705–756). -/
def selectDisplayLocation (candidates : List (Option LocationCandidate)) :
    Option LocationCandidate :=
  (candidates.foldl selectStep none).map (·.1)

theorem selectStep_inv (acc : Option (LocationCandidate × Int)) (c? : Option LocationCandidate)
    (h : ∀ p : LocationCandidate × Int, acc = some p → p.2 = derivedPriority p.1) :
    ∀ p : LocationCandidate × Int, selectStep acc c? = some p → p.2 = derivedPriority p.1 := by
  intro p hp
  cases c? with
  | none => exact h p hp
  | some cand =>
    cases acc with
    | none =>
      simp only [selectStep] at hp
      cases hp; rfl
    | some a0 =>
      obtain ⟨best, bp⟩ := a0
      have hbp : bp = derivedPriority best := h (best, bp) rfl
      simp only [selectStep] at hp
      split_ifs at hp with h1 h2 h3 h4 h5 h6 <;> cases hp <;> dsimp only
      all_goals first | rfl | exact hbp | omega

/-- With a held best and a non-null candidate, the step keeps the smaller of
the two priorities (whatever tie-breaking decides about the record itself). -/
theorem selectStep_some_snd (a : LocationCandidate) (ap : Int) (cand : LocationCandidate) :
    ∃ r, selectStep (some (a, ap)) (some cand) = some (r, min ap (derivedPriority cand)) := by
  simp only [selectStep]
  split_ifs with h1 h2 h3 h4 h5 h6
  · exact ⟨cand, by rw [min_eq_right (le_of_lt h1)]⟩
  · exact ⟨a, by rw [min_eq_left (by omega)]⟩
  · exact ⟨cand, by rw [min_eq_left (by omega)]⟩
  · exact ⟨cand, by rw [min_eq_left (by omega)]⟩
  · exact ⟨cand, by rw [min_eq_left (by omega)]⟩
  · exact ⟨cand, by rw [min_eq_left (by omega)]⟩
  · exact ⟨a, by rw [min_eq_left (by omega)]⟩

theorem foldl_selectStep_le :
    ∀ (l : List (Option LocationCandidate)) (acc : Option (LocationCandidate × Int))
      (b : LocationCandidate) (bp : Int),
      l.foldl selectStep acc = some (b, bp) →
      (∀ a ap, acc = some (a, ap) → bp ≤ ap)
      ∧ (∀ c? ∈ l, ∀ c, c? = some c → bp ≤ derivedPriority c) := by
  intro l
  induction l with
  | nil =>
    intro acc b bp h
    simp only [List.foldl_nil] at h
    refine ⟨fun a ap ha => ?_, fun c? hmem => absurd hmem (List.not_mem_nil _)⟩
    rw [ha] at h
    have hsnd := congrArg Prod.snd (Option.some.inj h)
    dsimp only at hsnd
    omega
  | cons x l ih =>
    intro acc b bp h
    simp only [List.foldl_cons] at h
    cases x with
    | none =>
      have IH := ih acc b bp h
      refine ⟨IH.1, fun c? hmem c hc => ?_⟩
      rcases List.mem_cons.mp hmem with heq | hmem'
      · rw [heq] at hc; cases hc
      · exact IH.2 c? hmem' c hc
    | some cand =>
      cases acc with
      | none =>
        have IH := ih (some (cand, derivedPriority cand)) b bp h
        have hbd : bp ≤ derivedPriority cand := IH.1 cand (derivedPriority cand) rfl
        refine ⟨fun a ap ha => Option.noConfusion ha, fun c? hmem c hc => ?_⟩
        rcases List.mem_cons.mp hmem with heq | hmem'
        · rw [heq] at hc
          rw [← Option.some.inj hc]
          exact hbd
        · exact IH.2 c? hmem' c hc
      | some a0 =>
        obtain ⟨a, ap⟩ := a0
        obtain ⟨r, hr⟩ := selectStep_some_snd a ap cand
        rw [hr] at h
        have IH := ih _ b bp h
        have hmin : bp ≤ min ap (derivedPriority cand) := IH.1 r _ rfl
        refine ⟨fun a' ap' ha' => ?_, fun c? hmem c hc => ?_⟩
        · have hap := congrArg Prod.snd (Option.some.inj ha')
          dsimp only at hap
          omega
        · rcases List.mem_cons.mp hmem with heq | hmem'
          · rw [heq] at hc
            rw [← Option.some.inj hc]
            omega
          · exact IH.2 c? hmem' c hc

theorem foldl_selectStep_inv_aux :
    ∀ (l : List (Option LocationCandidate)) (acc : Option (LocationCandidate × Int)),
      (∀ p : LocationCandidate × Int, acc = some p → p.2 = derivedPriority p.1) →
      ∀ p, l.foldl selectStep acc = some p → p.2 = derivedPriority p.1 := by
  intro l
  induction l with
  | nil => intro acc h p hp; exact h p hp
  | cons x l ih => intro acc h p hp; exact ih _ (selectStep_inv acc x h) p hp

theorem foldl_selectStep_inv' (l : List (Option LocationCandidate))
    {b : LocationCandidate} {bp : Int} (h : l.foldl selectStep none = some (b, bp)) :
    bp = derivedPriority b :=
  foldl_selectStep_inv_aux l none (fun _ hp => Option.noConfusion hp) (b, bp) h


/-- C5.  The selected location's (derived) display priority is a minimum
over all non-null input candidates; in particular, when the selected
candidate and an input both carry an explicit `displayPriority`, the
selected one's is less than or equal (a more specific candidate is never
superseded by a less specific one). -/
theorem selectDisplayLocation_min_priority (cands : List (Option LocationCandidate))
    (best : LocationCandidate) (hsel : selectDisplayLocation cands = some best) :
    (∀ c? ∈ cands, ∀ c, c? = some c → derivedPriority best ≤ derivedPriority c)
    ∧ (∀ c? ∈ cands, ∀ c p q, c? = some c → best.displayPriority = some p →
        c.displayPriority = some q → p ≤ q) := by
  unfold selectDisplayLocation at hsel
  cases hfold : cands.foldl selectStep none with
  | none => rw [hfold] at hsel; cases hsel
  | some pr =>
    obtain ⟨b, bp⟩ := pr
    rw [hfold] at hsel
    have hb : best = b := by
      have := Option.some.inj hsel
      exact this.symm
    subst hb
    have hinv : bp = derivedPriority best :=
      foldl_selectStep_inv' cands hfold
    have hle := foldl_selectStep_le cands none best bp hfold
    constructor
    · intro c? hmem c hc
      have := hle.2 c? hmem c hc
      omega
    · intro c? hmem c p q hc hbp hcp
      have h1 := hle.2 c? hmem c hc
      have h2 : derivedPriority best = p := by simp [derivedPriority, hbp]
      have h3 : derivedPriority c = q := by simp [derivedPriority, hcp]
      omega

/-- A planet-level candidate (priority 0). -/
def locCandPlanet : LocationCandidate :=
  ⟨some 0, some (str "p1"), none, some (str "Alpha"), none, none, none,
   some (str "sysa"), some (str "AlphaSys"), none, some (str "Alpha"),
   some (str "planet")⟩

/-- A system-level candidate (priority 2). -/
def locCandSystem : LocationCandidate :=
  ⟨some 2, none, none, none, none, none, none, some (str "sysa"),
   some (str "AlphaSys"), none, some (str "AlphaSys"), some (str "system")⟩

theorem selectDisplayLocation_min_priority_witness :
    derivedPriority locCandPlanet ≤ derivedPriority locCandSystem :=
  (selectDisplayLocation_min_priority [some locCandSystem, some locCandPlanet]
      locCandPlanet (by decide)).1 (some locCandSystem) (by decide) locCandSystem rfl

/-! ## The shipment contract matcher (`shipmentContractsByItemId`,
lines 2339–2463, with `normalizeDeliveryShipmentType` lines 2122–2140) -/

/-- `normalizeDeliveryShipmentType` (lines 2122–2138): trim, upper-case,
strip the non-letters, and accept exactly the two canonical spellings. -/
def normalizeDeliveryShipmentType (value : Option (List Char)) : Option (List Char) :=
  match value with
  | none => none
  | some v =>
    let text := jsTrim v
    if text = [] then none
    else
      let collapsed := (jsToUpper text).filter (fun c => 'A' ≤ c && c ≤ 'Z')
      if collapsed = str "DELIVERYSHIPMENT" ∨ collapsed = str "DELIVERSHIPMENT" then
        some (str "DELIVERY_SHIPMENT")
      else none

/-- `isDeliveryShipmentType` (line 2140). -/
def isDeliveryShipmentType (value : Option (List Char)) : Bool :=
  (normalizeDeliveryShipmentType value).isSome

/-- A contract condition (fields the indexer reads; each modelled field
covers the source's `X || x` casing pair). -/
structure ContractCondition where
  Type' : Option (List Char)
  ShipmentItemId : Option (List Char)
  MaterialId : Option (List Char)
  ConditionId : Option (List Char)
  Status : Option (List Char)
  ConditionIndex : Option JVal
  Destination : Option (List Char)
  Party : Option (List Char)
  Weight : Option JVal
  Volume : Option JVal
  DeadlineEpochMs : Option JVal
  Dependencies : List (List Char)
deriving DecidableEq, Repr

structure Contract where
  Type' : Option (List Char)
  ContractId : Option (List Char)
  ContractLocalId : Option (List Char)
  Status : Option (List Char)
  PartnerName : Option (List Char)
  PartnerCompanyCode : Option (List Char)
  DueDateEpochMs : Option JVal
  Timestamp : Option JVal
  Conditions : List ContractCondition
deriving DecidableEq, Repr

/-- The denormalized per-condition entry pushed into the index
(lines 2413–2437). -/
structure ConditionEntry where
  contractId : Option (List Char)
  contractLocalId : Option (List Char)
  contractStatus : Option (List Char)
  partnerName : Option (List Char)
  partnerCode : Option (List Char)
  contractType : Option (List Char)
  contractTypeNormalized : Option (List Char)
  dueDateEpochMs : Option Rat
  timestampEpochMs : Option Rat
  conditionId : Option (List Char)
  conditionType : List Char
  conditionTypeRaw : Option (List Char)
  conditionStatus : Option (List Char)
  conditionIndex : Option Rat
  destination : Option (List Char)
  party : Option (List Char)
  weight : Option Rat
  volume : Option Rat
  deadlineEpochMs : Option Rat
  dependencies : List (List Char)
  condition : ContractCondition
deriving DecidableEq, Repr

/-- The local `normalizeTimestamp` (lines 2342–2352); `dateParse` is the
host's `Date.parse` on strings. -/
def normalizeContractTimestamp (dateParse : List Char → Option Int) :
    Option JVal → Option Rat
  | none => none
  | some .jnull => none
  | some (.jnum q) => some q
  | some (.jstr s) => (dateParse s).map (fun n => (n : Rat))
  | some (.jbool _) => none

/-- The comparator key: a missing/non-finite condition index sorts as
`+Infinity` (after every finite index). -/
def idxLt : Option Rat → Option Rat → Bool
  | some a, some b => a < b
  | some _, none => true
  | none, _ => false

def idxEq : Option Rat → Option Rat → Bool
  | some a, some b => a = b
  | none, none => true
  | _, _ => false

/-- "Comparator at most zero" for the sort of lines 2449–2458: ascending
condition index (missing index last), ties by condition type. -/
def condLe (a b : ConditionEntry) : Bool :=
  idxLt a.conditionIndex b.conditionIndex
  || (idxEq a.conditionIndex b.conditionIndex && strLe a.conditionType b.conditionType)

/-- Insert into a sorted list (the model of `Array.prototype.sort` with the
comparator `condLe`: any comparator-consistent sort produces a `condLe`-sorted
result, which is all the source relies on). -/
def insertSorted {α : Type _} (le : α → α → Bool) (x : α) : List α → List α
  | [] => [x]
  | y :: ys => if le x y then x :: y :: ys else y :: insertSorted le x ys

def sortByLe {α : Type _} (le : α → α → Bool) : List α → List α
  | [] => []
  | x :: xs => insertSorted le x (sortByLe le xs)

/-- The entry built for one qualifying condition (lines 2397–2437),
given the contract-level fields already extracted. -/
def buildConditionEntry (dateParse : List Char → Option Int) (contract : Contract)
    (condition : ContractCondition) (normalizedConditionType : List Char) :
    ConditionEntry :=
  let rawContractType := contract.Type'
  let normalizedContractType := normalizeDeliveryShipmentType rawContractType
  { contractId := contract.ContractId
    contractLocalId := contract.ContractLocalId
    contractStatus := contract.Status
    partnerName := contract.PartnerName
    partnerCode := contract.PartnerCompanyCode
    contractType :=
      match normalizedContractType with
      | some t => some t
      | none => rawContractType
    contractTypeNormalized := normalizedContractType
    dueDateEpochMs := contract.DueDateEpochMs.bind toNumericValue
    timestampEpochMs := normalizeContractTimestamp dateParse contract.Timestamp
    conditionId := condition.ConditionId
    conditionType := normalizedConditionType
    conditionTypeRaw := condition.Type'
    conditionStatus := condition.Status
    conditionIndex := condition.ConditionIndex.bind toNumericValue
    destination := condition.Destination
    party := condition.Party
    weight := condition.Weight.bind toNumericValue
    volume := condition.Volume.bind toNumericValue
    deadlineEpochMs := condition.DeadlineEpochMs.bind toNumericValue
    dependencies := condition.Dependencies
    condition := condition }

/-- One condition's contribution to the raw (unsorted) index
(lines 2392–2445). -/
def conditionStep (dateParse : List Char → Option Int) (contract : Contract)
    (m : List (List Char × List ConditionEntry)) (condition : ContractCondition) :
    List (List Char × List ConditionEntry) :=
  match normalizeDeliveryShipmentType condition.Type' with
  | none => m
  | some normType =>
    let rawShipmentItemId := strOrOpt condition.ShipmentItemId condition.MaterialId
    match normalizeLookupKey rawShipmentItemId with
    | none => m
    | some key =>
      let entry := buildConditionEntry dateParse contract condition normType
      match mget m key with
      | some existingEntries => mset m key (existingEntries ++ [entry])
      | none => mset m key [entry]

/-- One contract's contribution (lines 2354–2446): contracts qualify when
their own type, or at least one condition's type, denotes the
delivery-shipment obligation. -/
def contractStep (dateParse : List Char → Option Int)
    (m : List (List Char × List ConditionEntry)) (contract? : Option Contract) :
    List (List Char × List ConditionEntry) :=
  match contract? with
  | none => m
  | some contract =>
    let normalizedContractType := normalizeDeliveryShipmentType contract.Type'
    let hasDeliveryShipmentCondition :=
      contract.Conditions.any (fun condition => isDeliveryShipmentType condition.Type')
    if normalizedContractType = none ∧ hasDeliveryShipmentCondition = false then m
    else contract.Conditions.foldl (conditionStep dateParse contract) m

/-- `shipmentContractsByItemId` (lines 2339–2463): build the raw index,
then sort every per-key list by condition index (missing index last), ties
by condition type. -/
def shipmentContractsByItemId (dateParse : List Char → Option Int)
    (contracts : List (Option Contract)) : List (List Char × List ConditionEntry) :=
  ((contracts.foldl (contractStep dateParse) []).map
    (fun p => (p.1, sortByLe condLe p.2)))

theorem strLe_total : ∀ a b : List Char, strLe a b = true ∨ strLe b a = true := by
  intro a
  induction a with
  | nil => intro b; left; rfl
  | cons c cs ih =>
    intro b
    cases b with
    | nil => right; rfl
    | cons d ds =>
      rcases lt_trichotomy c.toNat d.toNat with h | h | h
      · left
        simp only [strLe, Bool.or_eq_true, decide_eq_true_eq]
        exact Or.inl h
      · rcases ih ds with h2 | h2
        · left
          simp only [strLe, Bool.or_eq_true, Bool.and_eq_true, decide_eq_true_eq]
          exact Or.inr ⟨h, h2⟩
        · right
          simp only [strLe, Bool.or_eq_true, Bool.and_eq_true, decide_eq_true_eq]
          exact Or.inr ⟨h.symm, h2⟩
      · right
        simp only [strLe, Bool.or_eq_true, decide_eq_true_eq]
        exact Or.inl h

theorem strLe_trans : ∀ a b c : List Char,
    strLe a b = true → strLe b c = true → strLe a c = true := by
  intro a
  induction a with
  | nil => intro b c _ _; rfl
  | cons x xs ih =>
    intro b c hab hbc
    cases b with
    | nil => simp [strLe] at hab
    | cons y ys =>
      cases c with
      | nil => simp [strLe] at hbc
      | cons z zs =>
        simp only [strLe, Bool.or_eq_true, Bool.and_eq_true, decide_eq_true_eq]
          at hab hbc ⊢
        rcases hab with hab | ⟨hab1, hab2⟩
        · rcases hbc with hbc | ⟨hbc1, hbc2⟩
          · exact Or.inl (by omega)
          · exact Or.inl (by omega)
        · rcases hbc with hbc | ⟨hbc1, hbc2⟩
          · exact Or.inl (by omega)
          · exact Or.inr ⟨by omega, ih ys zs hab2 hbc2⟩

theorem condLe_total : ∀ a b : ConditionEntry, condLe a b = true ∨ condLe b a = true := by
  intro a b
  simp only [condLe, Bool.or_eq_true, Bool.and_eq_true]
  cases ha : a.conditionIndex with
  | none =>
    cases hb : b.conditionIndex with
    | none =>
      rcases strLe_total a.conditionType b.conditionType with h | h
      · exact Or.inl (Or.inr ⟨rfl, h⟩)
      · exact Or.inr (Or.inr ⟨rfl, h⟩)
    | some y => exact Or.inr (Or.inl rfl)
  | some x =>
    cases hb : b.conditionIndex with
    | none => exact Or.inl (Or.inl rfl)
    | some y =>
      rcases lt_trichotomy x y with h | h | h
      · exact Or.inl (Or.inl (by simp [idxLt, h]))
      · subst h
        rcases strLe_total a.conditionType b.conditionType with h2 | h2
        · exact Or.inl (Or.inr ⟨by simp [idxEq], h2⟩)
        · exact Or.inr (Or.inr ⟨by simp [idxEq], h2⟩)
      · exact Or.inr (Or.inl (by simp [idxLt, h]))

theorem condLe_trans : ∀ a b c : ConditionEntry,
    condLe a b = true → condLe b c = true → condLe a c = true := by
  intro a b c hab hbc
  simp only [condLe, Bool.or_eq_true, Bool.and_eq_true] at hab hbc ⊢
  cases ha : a.conditionIndex with
  | none =>
    rw [ha] at hab
    rcases hab with hab | ⟨hab1, hab2⟩
    · simp [idxLt] at hab
    · cases hb : b.conditionIndex with
      | some y => rw [hb] at hab1; simp [idxEq] at hab1
      | none =>
        rw [hb] at hbc
        rcases hbc with hbc | ⟨hbc1, hbc2⟩
        · simp [idxLt] at hbc
        · cases hc : c.conditionIndex with
          | some z => rw [hc] at hbc1; simp [idxEq] at hbc1
          | none =>
            exact Or.inr ⟨by simp [idxEq], strLe_trans _ _ _ hab2 hbc2⟩
  | some x =>
    cases hc : c.conditionIndex with
    | none => exact Or.inl rfl
    | some z =>
      cases hb : b.conditionIndex with
      | none =>
        rw [hb, hc] at hbc
        rcases hbc with hbc | ⟨hbc1, _⟩
        · simp [idxLt] at hbc
        · simp [idxEq] at hbc1
      | some y =>
        rw [ha, hb] at hab
        rw [hb, hc] at hbc
        rcases hab with hab | ⟨hab1, hab2⟩
        · rcases hbc with hbc | ⟨hbc1, hbc2⟩
          · simp only [idxLt, decide_eq_true_eq] at hab hbc
            exact Or.inl (by simp [idxLt]; exact lt_trans hab hbc)
          · simp only [idxLt, decide_eq_true_eq] at hab
            simp only [idxEq, decide_eq_true_eq] at hbc1
            subst hbc1
            exact Or.inl (by simp [idxLt, hab])
        · rcases hbc with hbc | ⟨hbc1, hbc2⟩
          · simp only [idxEq, decide_eq_true_eq] at hab1
            simp only [idxLt, decide_eq_true_eq] at hbc
            subst hab1
            exact Or.inl (by simp [idxLt, hbc])
          · simp only [idxEq, decide_eq_true_eq] at hab1 hbc1
            subst hab1; subst hbc1
            exact Or.inr ⟨by simp [idxEq], strLe_trans _ _ _ hab2 hbc2⟩

theorem mem_insertSorted {α : Type _} (le : α → α → Bool) (x z : α) :
    ∀ l : List α, z ∈ insertSorted le x l → z = x ∨ z ∈ l := by
  intro l
  induction l with
  | nil =>
    intro h
    simp [insertSorted] at h
    exact Or.inl h
  | cons y ys ih =>
    intro h
    simp only [insertSorted] at h
    split_ifs at h with hxy
    · rcases List.mem_cons.mp h with rfl | h'
      · exact Or.inl rfl
      · exact Or.inr h'
    · rcases List.mem_cons.mp h with rfl | h'
      · exact Or.inr (List.mem_cons_self _ _)
      · rcases ih h' with h'' | h''
        · exact Or.inl h''
        · exact Or.inr (List.mem_cons_of_mem _ h'')

theorem pairwise_insertSorted {α : Type _} (le : α → α → Bool)
    (htot : ∀ a b, le a b = true ∨ le b a = true)
    (htrans : ∀ a b c, le a b = true → le b c = true → le a c = true)
    (x : α) :
    ∀ l : List α, l.Pairwise (fun a b => le a b = true) →
      (insertSorted le x l).Pairwise (fun a b => le a b = true) := by
  intro l
  induction l with
  | nil =>
    intro _
    simp only [insertSorted]
    exact List.pairwise_singleton (fun a b => le a b = true) x
  | cons y ys ih =>
    intro hp
    rw [List.pairwise_cons] at hp
    obtain ⟨hy, hys⟩ := hp
    simp only [insertSorted]
    split_ifs with hxy
    · refine List.Pairwise.cons ?_ (List.Pairwise.cons hy hys)
      intro z hz
      rcases List.mem_cons.mp hz with rfl | hz'
      · exact hxy
      · exact htrans x y z hxy (hy z hz')
    · refine List.Pairwise.cons ?_ (ih hys)
      intro z hz
      rcases mem_insertSorted le x z ys hz with heq | hz'
      · subst heq
        rcases htot z y with h | h
        · exact absurd h hxy
        · exact h
      · exact hy z hz'

theorem pairwise_sortByLe {α : Type _} (le : α → α → Bool)
    (htot : ∀ a b, le a b = true ∨ le b a = true)
    (htrans : ∀ a b c, le a b = true → le b c = true → le a c = true) :
    ∀ l : List α, (sortByLe le l).Pairwise (fun a b => le a b = true) := by
  intro l
  induction l with
  | nil => exact List.Pairwise.nil
  | cons x xs ih => exact pairwise_insertSorted le htot htrans x _ ih

theorem mget_mapValues {β γ : Type _} (f : β → γ) (m : List (List Char × β)) (k : List Char) :
    mget (m.map (fun p => (p.1, f p.2))) k = (mget m k).map f := by
  induction m with
  | nil => rfl
  | cons p rest ih =>
    simp only [List.map_cons, mget, List.find?]
    cases hpk : (decide (p.1 = k)) with
    | true => rfl
    | false => simpa [mget] using ih

/-- C6.  After indexing any list of contracts, presented in any order, every
per-shipment-item-id list is sorted by the comparator of lines 2449–2458:
condition index ascending with missing indices last, equal indices ordered
by the condition-type comparison. -/
theorem shipmentContractsByItemId_sorted (dateParse : List Char → Option Int)
    (contracts : List (Option Contract)) (k : List Char) (l : List ConditionEntry)
    (h : mget (shipmentContractsByItemId dateParse contracts) k = some l) :
    l.Pairwise (fun a b => condLe a b = true) := by
  unfold shipmentContractsByItemId at h
  rw [mget_mapValues] at h
  rcases Option.map_eq_some'.mp h with ⟨l0, _, rfl⟩
  exact pairwise_sortByLe condLe condLe_total condLe_trans l0

/-- A delivery-shipment condition for the witness scenario, with the given
condition index. -/
def c6cond (i : Rat) : ContractCondition :=
  ⟨some (str "DELIVERY_SHIPMENT"), some (str "ItemOne"), none, none, none,
   some (.jnum i), none, none, none, none, none, []⟩

/-- A delivery-shipment contract whose two conditions carry indices 2 and 0
(in that order). -/
def c6contract : Contract :=
  ⟨some (str "DELIVERY_SHIPMENT"), some (str "c1"), none, none, none, none,
   none, none, [c6cond 2, c6cond 0]⟩

def c6list : List ConditionEntry :=
  (mget (shipmentContractsByItemId (fun _ => none) [some c6contract])
    (str "itemone")).getD []

theorem shipmentContractsByItemId_sorted_witness :
    (c6list.map (fun e => e.conditionIndex)) = [some 0, some 2]
    ∧ c6list.Pairwise (fun a b => condLe a b = true) :=
  ⟨by decide,
    shipmentContractsByItemId_sorted (fun _ => none) [some c6contract]
      (str "itemone") c6list (by decide)⟩

/-! ## Ship-load ratios (`normalizePercent` lines 2468–2476, the ratio
computation of `considerShip`, lines 2661–2678 and 2716–2718) -/

/-- `normalizePercent` (lines 2468–2476): numeric values above 1.5 are taken
to be on the 0–100 scale and divided by 100. -/
def normalizePercent (value : Option JVal) : Option Rat :=
  match value with
  | none => none
  | some v =>
    match toNumericValue v with
    | none => none
    | some numeric => if numeric > 1.5 then some (numeric / 100) else some numeric

/-- The shared body of the `volumeRatio`/`weightRatio` computations
(lines 2661–2673): `Math.max(0, load / capacity)` when both are present and
the capacity is positive, `null` otherwise (finiteness is intrinsic here). -/
def dimensionRatioOf (capacity load : Option Rat) : Option Rat :=
  match capacity, load with
  | some cap, some l => if cap > 0 then some (max 0 (l / cap)) else none
  | _, _ => none

/-- The overall ratio (lines 2677–2678): `Math.max` over the defined
candidates, `null` when none is defined. -/
def overallRatio (volumeRatio weightRatio percentRatio : Option Rat) : Option Rat :=
  match ([volumeRatio, weightRatio, percentRatio].filterMap id) with
  | [] => none
  | x :: xs => some (xs.foldl max x)

/-- The clamp applied to each ratio stored into the `info` object
(lines 2716–2718): `x != null ? Math.max(0, x) : null`. -/
def storedRatio (r : Option Rat) : Option Rat := r.map (fun v => max 0 v)

theorem foldl_max_mem (x : Rat) : ∀ xs : List Rat,
    xs.foldl max x = x ∨ xs.foldl max x ∈ xs := by
  intro xs
  induction xs generalizing x with
  | nil => exact Or.inl rfl
  | cons y ys ih =>
    simp only [List.foldl_cons]
    rcases ih (max x y) with h | h
    · rcases max_choice x y with hm | hm
      · exact Or.inl (h.trans hm)
      · exact Or.inr (by rw [h, hm]; exact List.mem_cons_self _ _)
    · exact Or.inr (List.mem_cons_of_mem _ h)

theorem le_foldl_max (x : Rat) : ∀ xs : List Rat,
    x ≤ xs.foldl max x ∧ ∀ q ∈ xs, q ≤ xs.foldl max x := by
  intro xs
  induction xs generalizing x with
  | nil => exact ⟨le_refl x, fun q hq => absurd hq (List.not_mem_nil _)⟩
  | cons y ys ih =>
    simp only [List.foldl_cons]
    obtain ⟨h1, h2⟩ := ih (max x y)
    refine ⟨le_trans (le_max_left x y) h1, fun q hq => ?_⟩
    rcases List.mem_cons.mp hq with rfl | hq'
    · exact le_trans (le_max_right x q) h1
    · exact h2 q hq'

/-- C7, counterexample.  With capacity 10 and load −5 both present and the
capacity positive, the per-dimension ratio is `max(0, load/capacity) = 0`,
not `load/capacity = −1/2`: the claimed equality fails for negative loads. -/
theorem shipLoad_ratio_neg_load_cex :
    (0 : Rat) < 10
    ∧ dimensionRatioOf (some 10) (some (-5)) = some 0
    ∧ ((-5 : Rat) / 10 ≠ 0) := by
  have hle : ((-5 : Rat) / 10) ≤ 0 := by norm_num
  refine ⟨by norm_num, ?_, by norm_num⟩
  simp only [dimensionRatioOf, max_eq_left hle]
  norm_num

/-- C7, amended.  A per-dimension ratio is defined exactly when capacity and
load are both present and the capacity is positive, and then equals
`max(0, load/capacity)` — which is `load/capacity` whenever the load is
non-negative (1–5).  A reported percentage above 1.5 is divided by 100,
otherwise used as-is (6–7).  The overall ratio is the maximum of the defined
candidates and is one of them (8).  Each stored ratio is clamped below at 0
but not capped above 1 (9–10). -/
theorem shipLoad_ratio_spec :
    (∀ cap load : Rat, 0 < cap → 0 ≤ load →
      dimensionRatioOf (some cap) (some load) = some (load / cap))
    ∧ (∀ cap load : Rat, 0 < cap →
      dimensionRatioOf (some cap) (some load) = some (max 0 (load / cap)))
    ∧ (∀ cap load : Rat, cap ≤ 0 → dimensionRatioOf (some cap) (some load) = none)
    ∧ (∀ x : Option Rat, dimensionRatioOf none x = none)
    ∧ (∀ x : Option Rat, dimensionRatioOf x none = none)
    ∧ (∀ q : Rat, 1.5 < q → normalizePercent (some (.jnum q)) = some (q / 100))
    ∧ (∀ q : Rat, q ≤ 1.5 → normalizePercent (some (.jnum q)) = some q)
    ∧ (∀ vr wr pr m, overallRatio vr wr pr = some m →
        m ∈ [vr, wr, pr].filterMap id ∧ ∀ q ∈ [vr, wr, pr].filterMap id, q ≤ m)
    ∧ (∀ r q : Rat, storedRatio (some r) = some q → 0 ≤ q)
    ∧ (dimensionRatioOf (some 10) (some 15) = some (3 / 2) ∧ (1 : Rat) < 3 / 2) := by
  refine ⟨?_, ?_, ?_, ?_, ?_, ?_, ?_, ?_, ?_, ?_, ?_⟩
  · intro cap load hcap hload
    have hdiv : (0 : Rat) ≤ load / cap := div_nonneg hload (le_of_lt hcap)
    simp only [dimensionRatioOf, if_pos hcap, max_eq_right hdiv]
  · intro cap load hcap
    simp only [dimensionRatioOf, if_pos hcap]
  · intro cap load hcap
    simp only [dimensionRatioOf, if_neg (not_lt.mpr hcap)]
  · intro x; cases x <;> rfl
  · intro x; cases x <;> rfl
  · intro q hq
    simp only [normalizePercent, toNumericValue, if_pos hq]
  · intro q hq
    simp only [normalizePercent, toNumericValue, if_neg (not_lt.mpr hq)]
  · intro vr wr pr m h
    unfold overallRatio at h
    cases hL : [vr, wr, pr].filterMap id with
    | nil => rw [hL] at h; cases h
    | cons x xs =>
      rw [hL] at h
      have hm : m = xs.foldl max x := (Option.some.inj h).symm
      subst hm
      constructor
      · rcases foldl_max_mem x xs with h' | h'
        · rw [h']; exact List.mem_cons_self _ _
        · exact List.mem_cons_of_mem _ h'
      · intro q hq
        rcases List.mem_cons.mp hq with rfl | hq'
        · exact (le_foldl_max q xs).1
        · exact (le_foldl_max x xs).2 q hq'
  · intro r q h
    have : q = max 0 r := (Option.some.inj h).symm
    rw [this]
    exact le_max_left 0 r
  · have h15 : (0 : Rat) ≤ (15 : Rat) / 10 := by norm_num
    have hpos : (10 : Rat) > 0 := by norm_num
    simp only [dimensionRatioOf, if_pos hpos, max_eq_right h15]
    norm_num
  · norm_num

theorem shipLoad_ratio_spec_witness :
    dimensionRatioOf (some 10) (some 5) = some (5 / 10) :=
  shipLoad_ratio_spec.1 10 5 (by decide) (by decide)

/-! ## The flight position interpolator (`interpolateShipPosition`,
lines 1019–1085) and the flight-activity classification (lines 1243–1299) -/

structure Point where
  x : Rat
  y : Rat
deriving DecidableEq, Repr

/-- One resolved flight segment as assembled into `segmentPairs`
(lines 1201–1211); the `timeBounds` of the segment are carried inline. -/
structure SegmentInfo where
  fromId : Option (List Char)
  toId : Option (List Char)
  fromCenter : Option Point
  toCenter : Option Point
  departure : Option Rat
  arrival : Option Rat
  duration : Option Rat
deriving DecidableEq, Repr

/-- The hint fields read off the ship record (segment indices are integral
in the data; a non-numeric field is absent). -/
structure ShipHints where
  CurrentSegmentIndex : Option Int
  SegmentIndex : Option Int
  CurrentSegment : Option Int
  Progress : Option Rat
  SegmentProgress : Option Rat
  Completion : Option Rat
deriving DecidableEq, Repr

/-- The hint fields read off the active flight record. -/
structure FlightHints where
  CurrentSegmentIndex : Option Int
  Progress : Option Rat
deriving DecidableEq, Repr

/-- What `interpolateShipPosition` can return: `null`, a bare endpoint
centerpoint (the `toCenter || fromCenter` early return — no heading, no
progress), or a full interpolated position. -/
inductive InterpResult where
  | noPosition
  | centerOnly (p : Point)
  | full (x y dirx diry progress : Rat) (segmentIndex : Nat) (totalSegments : Nat)
deriving DecidableEq, Repr

/-- `clamp01` (line 967). -/
def clamp01 (val : Rat) : Rat := max 0 (min 1 val)

/-- Truthiness of a numeric epoch (`departure && arrival && …`: a 0 epoch is
falsy, exactly as in the source). -/
def numTruthy : Option Rat → Bool
  | some q => q ≠ 0
  | none => false

/-- The active segment index (lines 1025–1034): the first numeric hint,
clamped into range, else the last segment. -/
def activeSegmentIndex (flightHints : Option FlightHints) (ship : ShipHints)
    (numSegments : Nat) : Int :=
  let segmentIndexCandidates : List Int :=
    [flightHints.bind (fun f => f.CurrentSegmentIndex), ship.CurrentSegmentIndex,
     ship.SegmentIndex, ship.CurrentSegment].filterMap id
  match segmentIndexCandidates with
  | [] => (numSegments : Int) - 1
  | i :: _ => max 0 (min ((numSegments : Int) - 1) i)

/-- The in-segment progress (lines 1044–1064): time fraction between the
epochs, else elapsed over duration, else the first explicit progress hint,
else the binary final-segment fallback. -/
def segmentProgress (now : Rat) (flightHints : Option FlightHints) (ship : ShipHints)
    (seg : SegmentInfo) (selectedIndex : Int) (numSegments : Nat) : Rat :=
  if numTruthy seg.departure && numTruthy seg.arrival
      && (seg.arrival.getD 0 > seg.departure.getD 0) then
    clamp01 ((now - seg.departure.getD 0) / (seg.arrival.getD 0 - seg.departure.getD 0))
  else if (match seg.duration with | some d => d > 0 | none => false : Bool)
      && numTruthy seg.departure then
    clamp01 ((now - seg.departure.getD 0) / seg.duration.getD 0)
  else
    match ([flightHints.bind (fun f => f.Progress), ship.Progress,
            ship.SegmentProgress, ship.Completion].filterMap id) with
    | p :: _ => clamp01 p
    | [] => if selectedIndex ≥ (numSegments : Int) - 1 then 1 else 0

/-- `interpolateShipPosition` (lines 1019–1085).  `hypot` is the host's
`Math.hypot`; `now` is `Date.now()`.  The `!ship` guard cannot fire (the
ship record is a value here), and the flight context has already been
resolved by the caller. -/
def interpolateShipPosition (hypot : Rat → Rat → Rat) (now : Rat)
    (flightHints : Option FlightHints) (ship : ShipHints)
    (segments : List SegmentInfo) : InterpResult :=
  if segments = [] then .noPosition
  else
    let selectedIndex := activeSegmentIndex flightHints ship segments.length
    match segments.get? selectedIndex.toNat with
    | none =>
      -- `segments[selectedIndex]` missing: `segments[len-1]?.toCenter || null`
      match segments.getLast? with
      | some s =>
        match s.toCenter with
        | some p => .centerOnly p
        | none => .noPosition
      | none => .noPosition
    | some segmentInfo =>
      match segmentInfo.fromCenter, segmentInfo.toCenter with
      | some fromC, some toC =>
        let progress := segmentProgress now flightHints ship segmentInfo
          selectedIndex segments.length
        let dx := toC.x - fromC.x
        let dy := toC.y - fromC.y
        let h := hypot dx dy
        let length := if h = 0 then 1 else h
        .full (fromC.x + dx * progress) (fromC.y + dy * progress)
          (dx / length) (dy / length) progress selectedIndex.toNat segments.length
      | _, _ =>
        -- `return toCenter || fromCenter || null` (a partial result)
        match segmentInfo.toCenter with
        | some p => .centerOnly p
        | none =>
          match segmentInfo.fromCenter with
          | some p => .centerOnly p
          | none => .noPosition

/-- `computeIsFlightActive`: the activity classification of lines
1243–1278.  `arrivalMs`/`departureMs` come from the flight timing,
`progressCandidates` are the raw flight/ship progress hints in source order,
`statusText` is the lower-cased status string (empty when absent). -/
def computeIsFlightActive (arrivalMs departureMs : Option Rat) (nowTs : Rat)
    (progressCandidates : List (Option Rat)) (statusText : List Char)
    (numSegments : Nat) : Bool :=
  let timeToleranceMs : Rat := 2 * 60 * 1000
  let completedByTime :=
    match arrivalMs with
    | some a => a < nowTs - timeToleranceMs
    | none => false
  let notYetDeparted :=
    match departureMs with
    | some d => d > nowTs + timeToleranceMs
    | none => false
  let numericProgress := progressCandidates.findSome? id
  let completedByProgress :=
    match numericProgress with
    | some p => p ≥ 0.999
    | none => false
  let completedByStatus :=
    hasSubstr statusText (str "arriv") || hasSubstr statusText (str "dock")
    || hasSubstr statusText (str "complete") || hasSubstr statusText (str "idle")
    || hasSubstr statusText (str "done")
  !notYetDeparted && !completedByTime && !completedByProgress && !completedByStatus
    && numSegments > 0

def blankShipHints : ShipHints := ⟨none, none, none, none, none, none⟩

/-- A segment whose origin centerpoint is unresolved but whose destination
centerpoint is known. -/
def cexSegPartial : SegmentInfo := ⟨none, none, none, some ⟨1, 2⟩, none, none, none⟩

/-- C8, counterexample.  When exactly one endpoint centerpoint of the active
segment is unresolved, the interpolator does **not** return `none`: it
returns the resolved bare centerpoint (`toCenter || fromCenter || null`), a
partial position. -/
theorem interpolateShipPosition_partial_cex :
    cexSegPartial.fromCenter = none
    ∧ interpolateShipPosition (fun _ _ => 0) 0 none blankShipHints [cexSegPartial]
        = .centerOnly ⟨1, 2⟩
    ∧ interpolateShipPosition (fun _ _ => 0) 0 none blankShipHints [cexSegPartial]
        ≠ .noPosition := by
  refine ⟨rfl, by decide, by decide⟩

/-- C8, amended.  The interpolator returns `none` when the segment list is
empty, and when **both** endpoint centerpoints of the active segment are
unresolved; when exactly one endpoint is resolved it degrades to that bare
centerpoint (a partial result) instead of returning `none`. -/
theorem interpolateShipPosition_none_cases (hypot : Rat → Rat → Rat) (now : Rat)
    (flightHints : Option FlightHints) (ship : ShipHints) (segments : List SegmentInfo) :
    (segments = [] →
      interpolateShipPosition hypot now flightHints ship segments = .noPosition)
    ∧ (∀ seg, segments ≠ [] →
      segments.get? (activeSegmentIndex flightHints ship segments.length).toNat = some seg →
      seg.fromCenter = none → seg.toCenter = none →
      interpolateShipPosition hypot now flightHints ship segments = .noPosition)
    ∧ (∀ seg p, segments ≠ [] →
      segments.get? (activeSegmentIndex flightHints ship segments.length).toNat = some seg →
      seg.fromCenter = none → seg.toCenter = some p →
      interpolateShipPosition hypot now flightHints ship segments = .centerOnly p)
    ∧ (∀ seg p, segments ≠ [] →
      segments.get? (activeSegmentIndex flightHints ship segments.length).toNat = some seg →
      seg.fromCenter = some p → seg.toCenter = none →
      interpolateShipPosition hypot now flightHints ship segments = .centerOnly p) := by
  refine ⟨?_, ?_, ?_, ?_⟩
  · intro h
    simp [interpolateShipPosition, h]
  · intro seg hne hget hf ht
    simp only [interpolateShipPosition, if_neg hne, hget, hf, ht]
  · intro seg p hne hget hf ht
    simp only [interpolateShipPosition, if_neg hne, hget, hf, ht]
  · intro seg p hne hget hf ht
    simp only [interpolateShipPosition, if_neg hne, hget, hf, ht]

theorem interpolateShipPosition_none_cases_witness :
    interpolateShipPosition (fun _ _ => 0) 0 none blankShipHints [] = .noPosition :=
  (interpolateShipPosition_none_cases (fun _ _ => 0) 0 none blankShipHints []).1 rfl

/-- C9.  A flight whose reported progress hint has reached 0.999 is
classified inactive (`completedByProgress`), whatever its timing, status and
segment data say: no in-transit position is produced for it (the renderer
returns before interpolating, line 1297). -/
theorem computeIsFlightActive_completed_progress (arrivalMs departureMs : Option Rat)
    (nowTs : Rat) (progressCandidates : List (Option Rat)) (statusText : List Char)
    (numSegments : Nat) (p : Rat)
    (hfind : progressCandidates.findSome? id = some p) (hp : 0.999 ≤ p) :
    computeIsFlightActive arrivalMs departureMs nowTs progressCandidates
      statusText numSegments = false := by
  simp [computeIsFlightActive, hfind, hp]

theorem computeIsFlightActive_completed_progress_witness :
    computeIsFlightActive none none 0 [some 1] [] 1 = false :=
  computeIsFlightActive_completed_progress none none 0 [some 1] [] 1 1
    rfl (by norm_num)

/-! ## The ship-load index (`considerShip` and `shipLoadInfo`,
lines 2465–2733, and `getShipLoadInfoById`, lines 3060–3064) -/

def digitChar (n : Nat) : Char := Char.ofNat (48 + n)

def natToCharsGo : Nat → Nat → List Char → List Char
  | 0, _, acc => acc
  | fuel + 1, n, acc =>
    if n < 10 then digitChar n :: acc
    else natToCharsGo fuel (n / 10) (digitChar (n % 10) :: acc)

/-- Decimal rendering of an array index (for the `${…}::${index}` dedupe
key). -/
def natToChars (n : Nat) : List Char := natToCharsGo (n + 1) n []

/-- A ship's embedded storage sub-record (`ship.Storage` /
`ship.CurrentStorage`).  `percentFieldValues` lists the values of the six
`STORAGE_PERCENT_FIELDS` in field-list order. -/
structure ShipStorageSub where
  StorageId : Option (List Char)
  StorageID : Option (List Char)
  Id : Option (List Char)
  Name : Option (List Char)
  StorageName : Option (List Char)
  StorageNaturalId : Option (List Char)
  StorageNaturalID : Option (List Char)
  NaturalId : Option (List Char)
  AddressableId : Option (List Char)
  AddressableID : Option (List Char)
  WeightCapacity : Option JVal
  VolumeCapacity : Option JVal
  WeightLoad : Option JVal
  VolumeLoad : Option JVal
  percentFieldValues : List (Option JVal)
  StorageItems : Option (List StorageItem)
  Items : Option (List StorageItem)
  Type' : Option (List Char)
deriving DecidableEq, Repr

/-- A ship record (the fields `considerShip` reads).  `ShipRef` models the
source's `Ship` field, whose name is taken in Lean; `percentFieldValues` and
`shipPercentFieldValues` list the values of `STORAGE_PERCENT_FIELDS` and
`SHIP_PERCENT_FIELDS` read off the ship itself. -/
structure Ship where
  ShipId : Option (List Char)
  Id : Option (List Char)
  ShipRef : Option (List Char)
  Registration : Option (List Char)
  Name : Option (List Char)
  ShipName : Option (List Char)
  DisplayName : Option (List Char)
  AddressableId : Option (List Char)
  AddressId : Option (List Char)
  StorageAddressableId : Option (List Char)
  StorageId : Option (List Char)
  StorageID : Option (List Char)
  StorageNaturalId : Option (List Char)
  StorageNaturalID : Option (List Char)
  StorageName : Option (List Char)
  CurrentStorageId : Option (List Char)
  CurrentStorageID : Option (List Char)
  Storage : Option ShipStorageSub
  CurrentStorage : Option ShipStorageSub
  WeightCapacity : Option JVal
  VolumeCapacity : Option JVal
  WeightLoad : Option JVal
  VolumeLoad : Option JVal
  percentFieldValues : List (Option JVal)
  shipPercentFieldValues : List (Option JVal)
deriving DecidableEq, Repr

/-- `shipIdCandidates` (lines 2483–2494). -/
def shipIdCandidates (s : Ship) : List (Option (List Char)) :=
  [s.ShipId, s.Id, s.ShipRef, s.Registration, s.Name, s.ShipName, s.DisplayName,
   s.AddressableId, s.AddressId, s.StorageAddressableId]

/-- `storageCandidates` (lines 2496–2526), including the source's repeated
`CurrentStorage` block. -/
def shipStorageCandidates (s : Ship) : List (Option (List Char)) :=
  [s.StorageId, s.StorageID, s.StorageNaturalId, s.StorageNaturalID, s.StorageName,
   s.CurrentStorageId, s.CurrentStorageID,
   s.CurrentStorage.bind (·.StorageId), s.CurrentStorage.bind (·.StorageID),
   s.CurrentStorage.bind (·.Id), s.CurrentStorage.bind (·.Name),
   s.Storage.bind (·.StorageId), s.Storage.bind (·.StorageID),
   s.Storage.bind (·.Id), s.Storage.bind (·.Name),
   s.Storage.bind (·.StorageNaturalId), s.Storage.bind (·.StorageNaturalID),
   s.Storage.bind (·.NaturalId), s.Storage.bind (·.AddressableId),
   s.Storage.bind (·.AddressableID),
   s.CurrentStorage.bind (·.StorageId), s.CurrentStorage.bind (·.StorageID),
   s.CurrentStorage.bind (·.Id), s.CurrentStorage.bind (·.Name),
   s.CurrentStorage.bind (·.StorageNaturalId), s.CurrentStorage.bind (·.StorageNaturalID),
   s.CurrentStorage.bind (·.NaturalId), s.CurrentStorage.bind (·.AddressableId),
   s.CurrentStorage.bind (·.AddressableID)]

/-- `allLookupCandidates` (line 2528). -/
def allLookupCandidates (s : Ship) : List (Option (List Char)) :=
  shipIdCandidates s ++ shipStorageCandidates s

/-- The storage-record selection loop of `considerShip` (lines 2530–2550):
probe the storage index with every candidate key, keep the record with the
best (score, timestamp) evaluation. -/
def selectShipStorageRecord (dateParse : JVal → Option Int)
    (storageIdx : List (List Char × StorageRecord)) (s : Ship) :
    Option (StorageRecord × StorageEval) :=
  (allLookupCandidates s).foldl
    (fun best candidate =>
      match normalizeLookupKey candidate with
      | none => best
      | some normalized =>
        match mget storageIdx normalized with
        | none => best
        | some candidateRecord =>
          let evaluation := evaluateStorageRecord dateParse candidateRecord
          match best with
          | none => some (candidateRecord, evaluation)
          | some (bestRecord, bestEval) =>
            if evaluation.score > bestEval.score
                ∨ (evaluation.score = bestEval.score
                   ∧ tsGt evaluation.timestamp bestEval.timestamp = true) then
              some (candidateRecord, evaluation)
            else some (bestRecord, bestEval))
    none

/-- The fields `collectShipmentsFromRecord` reads off a record, shared
between proper storage records and a ship's embedded sub-record. -/
structure CargoView where
  items : List StorageItem
  srcStorageId : Option (List Char)
  srcId : Option (List Char)
  srcName : Option (List Char)
  srcStorageName : Option (List Char)
  srcType : Option (List Char)
deriving DecidableEq, Repr

def storageRecordView (r : StorageRecord) : CargoView :=
  { items :=
      match r.StorageItems with
      | some l => l
      | none => match r.Items with | some l => l | none => []
    srcStorageId := r.StorageId
    srcId := r.Id
    srcName := r.Name
    srcStorageName := r.StorageName
    srcType := r.Type' }

def shipStorageView (r : ShipStorageSub) : CargoView :=
  { items :=
      match r.StorageItems with
      | some l => l
      | none => match r.Items with | some l => l | none => []
    srcStorageId := r.StorageId
    srcId := r.Id
    srcName := r.Name
    srcStorageName := r.StorageName
    srcType := r.Type' }

/-- One collected shipment (lines 2619–2628); the contract entries are the
cloned index entries (clones are identities on values). -/
structure ShipmentEntry where
  storageItem : StorageItem
  shipmentItemKey : Option (List Char)
  contractMatches : List ConditionEntry
  sourceStorageId : Option (List Char)
  sourceName : Option (List Char)
  sourceType : Option (List Char)
deriving DecidableEq, Repr

/-- The per-item body of `collectShipmentsFromRecord` (lines 2566–2629);
the state carries the shipments collected so far and the
`seenShipmentKeys` set. -/
def collectItemStep (shipmentIdx : List (List Char × List ConditionEntry))
    (view : CargoView) (st : List ShipmentEntry × List (List Char))
    (iitem : Nat × StorageItem) : List ShipmentEntry × List (List Char) :=
  let index := iitem.1
  let item := iitem.2
  let candidateIds := [item.ShipmentItemId, item.MaterialId, item.ItemId, item.Id]
  let matched : Option (List Char × List ConditionEntry) :=
    candidateIds.findSome? (fun cid =>
      match normalizeLookupKey cid with
      | none => none
      | some normalizedCandidate =>
        match mget shipmentIdx normalizedCandidate with
        | some entries => some (normalizedCandidate, entries)
        | none => none)
  let dedupeKey : List Char :=
    match matched with
    | some (k, _) => k
    | none =>
      match normalizeLookupKey item.MaterialId with
      | some k => k
      | none =>
        match normalizeLookupKey item.ShipmentItemId with
        | some k => k
        | none =>
          (normalizeLookupKey (some (strOr view.srcStorageId (strOr view.srcId
            (strOr view.srcName (str "record")))))).getD []
            ++ str "::" ++ natToChars index
  if st.2.contains dedupeKey then st
  else
    let itemTypeRaw := match item.Type' with | some t => jsToLower t | none => []
    let isLikelyShipment := hasSubstr itemTypeRaw (str "shipment")
    match matched with
    | none =>
      if isLikelyShipment then
        (st.1 ++ [⟨item, none, [], strOrOpt view.srcStorageId view.srcId,
          strOrOpt view.srcName view.srcStorageName, view.srcType⟩],
         st.2 ++ [dedupeKey])
      else st
    | some (k, entries) =>
      (st.1 ++ [⟨item, some k, entries, strOrOpt view.srcStorageId view.srcId,
        strOrOpt view.srcName view.srcStorageName, view.srcType⟩],
       st.2 ++ [dedupeKey])

/-- `collectShipmentsFromRecord` applied to a possibly-null record view. -/
def collectShipmentsFromView (shipmentIdx : List (List Char × List ConditionEntry))
    (st : List ShipmentEntry × List (List Char)) (view? : Option CargoView) :
    List ShipmentEntry × List (List Char) :=
  match view? with
  | none => st
  | some view => view.items.enum.foldl (collectItemStep shipmentIdx view) st

/-- The `ShipLoadInfo` value built by `considerShip` (lines 2710–2720). -/
structure ShipLoadData where
  storageRecord : Option StorageRecord
  volumeCapacity : Option Rat
  weightCapacity : Option Rat
  volumeLoad : Option Rat
  weightLoad : Option Rat
  volumeRatio : Option Rat
  weightRatio : Option Rat
  ratio : Option Rat
  shipments : List ShipmentEntry
deriving DecidableEq, Repr

def firstSome (l : List (Option Rat)) : Option Rat := l.findSome? id

/-- `considerShip` (lines 2478–2728), as a pure function from a ship to its
load info; `none` is the early return of lines 2688–2696 (no capacity/load
signal, no storage record, no shipments).  The map insertions of lines
2722–2727 are performed by `shipLoadStep` below. -/
def considerShipInfo (dateParse : JVal → Option Int)
    (storageIdx : List (List Char × StorageRecord))
    (shipmentIdx : List (List Char × List ConditionEntry)) (ship : Ship) :
    Option ShipLoadData :=
  let storageRecord := (selectShipStorageRecord dateParse storageIdx ship).map (·.1)
  let shipStorageSource := ship.Storage
  -- `pickFromSources` over [storageRecord, shipStorageSource, ship], with the
  -- source's (no-op) `?? pickFromSources([ship], …)` retry.
  let volumeCapacity :=
    (firstSome [storageRecord.bind (fun r => r.VolumeCapacity.bind toNumericValue),
       shipStorageSource.bind (fun r => r.VolumeCapacity.bind toNumericValue),
       ship.VolumeCapacity.bind toNumericValue]).orElse
      (fun _ => ship.VolumeCapacity.bind toNumericValue)
  let weightCapacity :=
    (firstSome [storageRecord.bind (fun r => r.WeightCapacity.bind toNumericValue),
       shipStorageSource.bind (fun r => r.WeightCapacity.bind toNumericValue),
       ship.WeightCapacity.bind toNumericValue]).orElse
      (fun _ => ship.WeightCapacity.bind toNumericValue)
  let volumeLoad :=
    (firstSome [storageRecord.bind (fun r => r.VolumeLoad.bind toNumericValue),
       shipStorageSource.bind (fun r => r.VolumeLoad.bind toNumericValue),
       ship.VolumeLoad.bind toNumericValue]).orElse
      (fun _ => ship.VolumeLoad.bind toNumericValue)
  let weightLoad :=
    (firstSome [storageRecord.bind (fun r => r.WeightLoad.bind toNumericValue),
       shipStorageSource.bind (fun r => r.WeightLoad.bind toNumericValue),
       ship.WeightLoad.bind toNumericValue]).orElse
      (fun _ => ship.WeightLoad.bind toNumericValue)
  let generalPercent :=
    (firstSome [storageRecord.bind (fun r => pickNumericValue r.percentFieldValues),
       shipStorageSource.bind (fun r => pickNumericValue r.percentFieldValues),
       pickNumericValue ship.percentFieldValues]).orElse
      (fun _ => pickNumericValue ship.shipPercentFieldValues)
  let volumeRatio := dimensionRatioOf volumeCapacity volumeLoad
  let weightRatio := dimensionRatioOf weightCapacity weightLoad
  let percentRatio := normalizePercent (generalPercent.map JVal.jnum)
  let ratio := overallRatio volumeRatio weightRatio percentRatio
  -- the `Number.isFinite` renormalizations of lines 2680–2683 are identities
  let shipments := (collectShipmentsFromView shipmentIdx
    (collectShipmentsFromView shipmentIdx ([], []) (storageRecord.map storageRecordView))
    (shipStorageSource.map shipStorageView)).1
  if storageRecord = none ∧ volumeCapacity = none ∧ weightCapacity = none
      ∧ volumeLoad = none ∧ weightLoad = none ∧ ratio = none ∧ shipments = [] then
    none
  else
    let derivedVolumeLoad :=
      match volumeLoad with
      | some v => some v
      | none =>
        match volumeCapacity, volumeRatio with
        | some cap, some r => some (r * cap)
        | _, _ => none
    let derivedWeightLoad :=
      match weightLoad with
      | some v => some v
      | none =>
        match weightCapacity, weightRatio with
        | some cap, some r => some (r * cap)
        | _, _ => none
    some
      { storageRecord := storageRecord
        volumeCapacity := volumeCapacity
        weightCapacity := weightCapacity
        volumeLoad := derivedVolumeLoad
        weightLoad := derivedWeightLoad
        volumeRatio := storedRatio volumeRatio
        weightRatio := storedRatio weightRatio
        ratio := storedRatio ratio
        shipments := shipments }

/-- One candidate key's insertion (lines 2722–2727): a key already present
is never overwritten. -/
def shipKeysStep (info : ShipLoadData) (m : List (List Char × ShipLoadData))
    (candidate : Option (List Char)) : List (List Char × ShipLoadData) :=
  match normalizeLookupKey candidate with
  | none => m
  | some normalized =>
    if (mget m normalized).isSome then m else mset m normalized info

/-- One (possibly null) ship's contribution to the load-info map. -/
def shipLoadStep (dateParse : JVal → Option Int)
    (storageIdx : List (List Char × StorageRecord))
    (shipmentIdx : List (List Char × List ConditionEntry))
    (m : List (List Char × ShipLoadData)) (ship? : Option Ship) :
    List (List Char × ShipLoadData) :=
  match ship? with
  | none => m
  | some ship =>
    match considerShipInfo dateParse storageIdx shipmentIdx ship with
    | none => m
    | some info => (allLookupCandidates ship).foldl (shipKeysStep info) m

/-- `shipLoadInfo` (lines 2465–2733): fold every ship, in list order, into
the load-info map. -/
def shipLoadInfoMap (dateParse : JVal → Option Int)
    (storageIdx : List (List Char × StorageRecord))
    (shipmentIdx : List (List Char × List ConditionEntry))
    (ships : List (Option Ship)) : List (List Char × ShipLoadData) :=
  ships.foldl (shipLoadStep dateParse storageIdx shipmentIdx) []

/-- `getShipLoadInfoById` (lines 3060–3064). -/
def getShipLoadInfoById (m : List (List Char × ShipLoadData))
    (candidate : Option (List Char)) : Option ShipLoadData :=
  match normalizeLookupKey candidate with
  | none => none
  | some normalized => mget m normalized

theorem shipKeysStep_preserves (info : ShipLoadData) (m : List (List Char × ShipLoadData))
    (cand : Option (List Char)) (k : List Char) (v : ShipLoadData)
    (h : mget m k = some v) : mget (shipKeysStep info m cand) k = some v := by
  unfold shipKeysStep
  cases hn : normalizeLookupKey cand with
  | none => exact h
  | some n =>
    by_cases hs : (mget m n).isSome
    · simp only [if_pos hs]
      exact h
    · simp only [if_neg hs]
      rw [mget_mset]
      have hkn : ¬ (k = n) := by
        intro he
        rw [← he, h] at hs
        exact hs rfl
      rw [if_neg hkn]
      exact h

theorem mget_foldl_preserved {α β : Type _}
    (step : List (List Char × β) → α → List (List Char × β))
    (hstep : ∀ m x k v, mget m k = some v → mget (step m x) k = some v) :
    ∀ (l : List α) (m : List (List Char × β)) (k : List Char) (v : β),
      mget m k = some v → mget (l.foldl step m) k = some v := by
  intro l
  induction l with
  | nil => intro m k v h; exact h
  | cons x xs ih => intro m k v h; exact ih _ k v (hstep m x k v h)

theorem shipLoadStep_preserves (dateParse : JVal → Option Int)
    (storageIdx : List (List Char × StorageRecord))
    (shipmentIdx : List (List Char × List ConditionEntry))
    (m : List (List Char × ShipLoadData)) (ship? : Option Ship)
    (k : List Char) (v : ShipLoadData) (h : mget m k = some v) :
    mget (shipLoadStep dateParse storageIdx shipmentIdx m ship?) k = some v := by
  cases ship? with
  | none => exact h
  | some ship =>
    simp only [shipLoadStep]
    cases hinfo : considerShipInfo dateParse storageIdx shipmentIdx ship with
    | none => exact h
    | some info =>
      exact mget_foldl_preserved (shipKeysStep info)
        (fun m x k v h => shipKeysStep_preserves info m x k v h)
        (allLookupCandidates ship) m k v h

/-- C10.  An entry of the ship-load index, once set for a key by some ship,
is never overwritten by the ships processed later: whatever the prefix of
the ships list has stored under a normalized key is what
`getShipLoadInfoById` returns after the remaining ships are processed, so a
key shared by two ships deterministically yields the earlier ship's info. -/
theorem shipLoadInfo_first_ship_wins (dateParse : JVal → Option Int)
    (storageIdx : List (List Char × StorageRecord))
    (shipmentIdx : List (List Char × List ConditionEntry))
    (pre post : List (Option Ship)) (cand : Option (List Char))
    (k : List Char) (v : ShipLoadData)
    (hk : normalizeLookupKey cand = some k)
    (h : mget (shipLoadInfoMap dateParse storageIdx shipmentIdx pre) k = some v) :
    getShipLoadInfoById (shipLoadInfoMap dateParse storageIdx shipmentIdx (pre ++ post))
      cand = some v := by
  unfold getShipLoadInfoById
  rw [hk]
  unfold shipLoadInfoMap at h ⊢
  rw [List.foldl_append]
  exact mget_foldl_preserved (shipLoadStep dateParse storageIdx shipmentIdx)
    (fun m x k v h => shipLoadStep_preserves dateParse storageIdx shipmentIdx m x k v h)
    post _ k v h

/-- A ship with every field absent. -/
def blankShip : Ship :=
  ⟨none, none, none, none, none, none, none, none, none, none, none, none,
   none, none, none, none, none, none, none, none, none, none, none, [], []⟩

/-- Two ships sharing the lookup name `"Alpha"` but with different weight
capacities (so their computed infos differ). -/
def c10shipA : Ship :=
  { blankShip with Name := some (str "Alpha"), WeightCapacity := some (.jnum 3) }

def c10shipB : Ship :=
  { blankShip with Name := some (str "Alpha"), WeightCapacity := some (.jnum 7) }

def blankShipLoadData : ShipLoadData :=
  ⟨none, none, none, none, none, none, none, none, []⟩

def c10info : ShipLoadData :=
  (mget (shipLoadInfoMap (fun _ => none) [] [] [some c10shipA]) (str "alpha")).getD
    blankShipLoadData

theorem shipLoadInfo_first_ship_wins_witness :
    getShipLoadInfoById
      (shipLoadInfoMap (fun _ => none) [] [] ([some c10shipA] ++ [some c10shipB]))
      (some (str "Alpha")) = some c10info :=
  shipLoadInfo_first_ship_wins (fun _ => none) [] [] [some c10shipA] [some c10shipB]
    (some (str "Alpha")) (str "alpha") c10info (by decide) (by decide)
